import Mathlib

/-!
# intel-gpu-exporter: the two collectors

A shallow embedding of `pkg/collector/sysfs/sysfs.go` and
`pkg/collector/intelgputop/intelgputop.go`.

Conventions of the embedding:

* a Go `string` is a Lean `String`; parsers work on its list of characters
  (the texts handled here are valid UTF-8, and every byte test of the Go code
  is a test on an ASCII byte, so the character view and the byte view agree);
* a Go `float64` is the rational number it denotes (`ℚ`); arithmetic is exact,
  the rounding of IEEE operations, infinities and NaN are not represented;
* Go `int64`/`uint64` values are `Int`/`Nat` with the range tests of the code
  kept explicit;
* a Go `panic` is an explicit outcome;
* library functions (`strings`, `strconv`, `time`, `fmt`, `bufio`,
  `encoding/json`, `prometheus`) are embedded with the behaviour their
  documentation and sources give them; the lower-case table of package
  `unicode` for non-ASCII runes is a parameter `table`;
* loops whose termination is not structural take a bound on their iterations
  (`fuel`), always supplied large enough by their callers.
-/

set_option autoImplicit false

namespace IntelGpuExporter

/-! ## Text helpers: package `strings`, `unicode`, `strconv` -/

deriving instance DecidableEq for Except

/-- Go `unicode.IsSpace`: the white space characters of Unicode. -/
def isSpace (c : Char) : Bool :=
  c.toNat ∈ [0x09, 0x0a, 0x0b, 0x0c, 0x0d, 0x20, 0x85, 0xa0, 0x1680, 0x2028, 0x2029,
    0x202f, 0x205f, 0x3000] || (0x2000 ≤ c.toNat && c.toNat ≤ 0x200a)

/-- Go `strings.TrimSpace`: drop leading and trailing white space. -/
def TrimSpace (s : List Char) : List Char :=
  (s.dropWhile isSpace).rdropWhile isSpace

/-- Go `strings.Split(s, sep)` for a one-character separator: the pieces
between the occurrences of `sep` (one piece more than there are separators). -/
def Split (sep : Char) : List Char → List (List Char)
  | [] => [[]]
  | c :: cs =>
    if c = sep then [] :: Split sep cs
    else
      match Split sep cs with
      | [] => [[c]]
      | p :: ps => (c :: p) :: ps

/-- Go `strings.SplitN(s, sep, 2)` for a one-character separator: the text
before the first `sep` and the text after it, or `s` alone when `sep` does not
occur. -/
def SplitN2 (sep : Char) (s : List Char) : List (List Char) :=
  match s.dropWhile (fun c => c != sep) with
  | [] => [s]
  | _ :: rest => [s.takeWhile (fun c => c != sep), rest]

/-- Value of a decimal digit character. -/
def digitVal (c : Char) : Nat := c.toNat - 48

/-- The two kinds of `strconv.NumError`. -/
inductive NumError
  | invalid
  | range
  deriving DecidableEq, Repr

/-- Largest `uint64`. -/
def maxUint64 : Nat := 2 ^ 64 - 1

/-- The loop of `strconv.ParseUint(s, 10, 64)`: `n` is the value read so far.
`cutoff` is `maxUint64 / 10 + 1`, the least `n` for which `n * 10` overflows. -/
def ParseUintLoop : List Char → Nat → Except NumError Nat
  | [], n => .ok n
  | c :: cs, n =>
    if c.isDigit then
      if n ≥ maxUint64 / 10 + 1 then .error .range
      else
        let n1 := n * 10 + digitVal c
        if n1 > maxUint64 then .error .range
        else ParseUintLoop cs n1
    else .error .invalid

/-- Go `strconv.ParseUint(s, 10, 64)`. -/
def ParseUint (s : List Char) : Except NumError Nat :=
  if s = [] then .error .invalid else ParseUintLoop s 0

/-- Go `strconv.ParseInt(s, 10, 64)`: optional sign, then `ParseUint`, then the
signed range test against `cutoff = 2^63`. -/
def ParseInt (s : List Char) : Except NumError Int :=
  match s with
  | [] => .error .invalid
  | c :: cs =>
    let neg := c = '-'
    let body := if c = '+' ∨ c = '-' then cs else c :: cs
    match ParseUint body with
    | .error .invalid => .error .invalid
    | .error .range => .error .range
    | .ok un =>
      if ¬ neg ∧ un ≥ 2 ^ 63 then .error .range
      else if neg ∧ un > 2 ^ 63 then .error .range
      else .ok (if neg then -(un : Int) else (un : Int))

/-! ## `pkg/collector/sysfs` -/

/-- The struct `gpuFreq`. -/
structure gpuFreq where
  ActualFrequency : ℚ
  IdleFrequency : ℚ
  MaxFrequency : ℚ
  deriving DecidableEq

/-- Errors of `parseFreq` and `readFrequencySysFS`. -/
inductive FreqError
  | unexpectedInput (s : String)
  | number (e : NumError)
  | openFailed
  deriving DecidableEq

/-- The function `parseFreq`. -/
def parseFreq (s : List Char) : Except FreqError ℚ :=
  match Split ' ' (TrimSpace s) with
  | [p0, _] =>
    match ParseInt p0 with
    | .error e => .error (.number e)
    | .ok v => .ok ((v : ℚ) * 1000000)
  | _ => .error (.unexpectedInput (String.mk s))

/-- One iteration of the scanning loop of `readFrequencySysFS` on the line
`text` (what `scanner.Text()` returns). -/
def scanLine (result : gpuFreq) (text : String) : Except FreqError gpuFreq :=
  match SplitN2 ':' text.toList with
  | [key, value] =>
    if key = "Actual freq".toList then
      match parseFreq value with
      | .error e => .error e
      | .ok f => .ok { result with ActualFrequency := f }
    else if key = "Max freq".toList then
      match parseFreq value with
      | .error e => .error e
      | .ok f => .ok { result with MaxFrequency := f }
    else if key = "Idle freq".toList then
      match parseFreq value with
      | .error e => .error e
      | .ok f => .ok { result with IdleFrequency := f }
    else .ok result
  | _ => .ok result

/-- The scanning loop of `readFrequencySysFS` over the lines the scanner
yields, from the accumulated `result`. -/
def scanLines : gpuFreq → List String → Except FreqError gpuFreq
  | result, [] => .ok result
  | result, text :: rest =>
    match scanLine result text with
    | .error e => .error e
    | .ok r => scanLines r rest

/-- The function `readFrequencySysFS`; `file` is `none` when `os.Open` fails,
else the lines of the file. -/
def readFrequencySysFS (file : Option (List String)) : Except FreqError gpuFreq :=
  match file with
  | none => .error .openFailed
  | some lines => scanLines ⟨0, 0, 0⟩ lines

/-- Result of a Go call that may panic, or whose value the language leaves to
the implementation. -/
inductive Outcome (α : Type)
  | value (a : α)
  | panics
  | unspecified
  deriving DecidableEq

/-- Go conversion `int(x)` of a `float64`: the fraction is discarded
(truncation towards zero). -/
def truncate (x : ℚ) : Int := if 0 ≤ x then ⌊x⌋ else ⌈x⌉

/-- Go conversion `int(x)` on a 64-bit platform; `none` when the truncated
value does not fit `int`, where the language leaves the result to the
implementation. -/
def floatToInt (x : ℚ) : Option Int :=
  if -(2 : Int) ^ 63 ≤ truncate x ∧ truncate x < (2 : Int) ^ 63 then some (truncate x) else none

/-- The loop of `prometheus.LinearBuckets`: `buckets[i] = start; start += width`,
`n` times. -/
def linearLoop (width : ℚ) : Nat → ℚ → List ℚ
  | 0, _ => []
  | n + 1, start => start :: linearLoop width n (start + width)

/-- Library function `prometheus.LinearBuckets(start, width, count)`: panics
when `count < 1`. -/
def LinearBuckets (start width : ℚ) (count : Int) : Outcome (List ℚ) :=
  if count < 1 then .panics else .value (linearLoop width count.toNat start)

/-- The method `gpuFreq.Buckets`. A zero `step` makes the quotient infinite or
NaN, whose conversion to `int` is left to the implementation. -/
def gpuFreq.Buckets (f : gpuFreq) (step : ℚ) : Outcome (List ℚ) :=
  if step = 0 then .unspecified
  else
    match floatToInt ((f.MaxFrequency - f.IdleFrequency) / step) with
    | none => .unspecified
    | some count => LinearBuckets f.IdleFrequency step count

/-- The struct `SysFS`: its histogram, represented by the bucket boundaries it
was created with. -/
structure SysFS where
  frequency : List ℚ
  deriving DecidableEq

/-- The test of `prometheus.NewHistogram` on its upper bounds: each is below
the next one. -/
def increasing : List ℚ → Bool
  | a :: b :: rest => decide (a < b) && increasing (b :: rest)
  | _ => true

/-- Library function `prometheus.NewHistogram` on the given `Buckets` option:
no buckets selects the default ones, boundaries that are not strictly
increasing make it panic. -/
def NewHistogram (buckets : List ℚ) : Outcome (List ℚ) :=
  if buckets = [] then .value [5 / 1000, 1 / 100, 25 / 1000, 5 / 100, 1 / 10, 25 / 100, 5 / 10, 1,
    25 / 10, 5, 10]
  else if increasing buckets then .value buckets
  else .panics

/-- What a call of `sysfs.New` does: it returns a collector, returns an error,
panics, or depends on an implementation-specific conversion. -/
inductive NewResult
  | collector (s : SysFS)
  | error (e : FreqError)
  | panics
  | unspecified
  deriving DecidableEq

/-- The function `sysfs.New`; `file` is the content of the frequency file at
the time of the call. -/
def New (file : Option (List String)) : NewResult :=
  match readFrequencySysFS file with
  | .error e => .error e
  | .ok frequencies =>
    match frequencies.Buckets 50000000 with
    | .panics => .panics
    | .unspecified => .unspecified
    | .value buckets =>
      match NewHistogram buckets with
      | .panics => .panics
      | .unspecified => .unspecified
      | .value bs => .collector ⟨bs⟩

/-! ## Notions used to state the properties of `pkg/collector/sysfs` -/

/-- A frequency that `parseFreq` can produce (a signed 64-bit number of MHz,
in Hz), such as the initial zero. -/
def wholeMHz (q : ℚ) : Prop :=
  ∃ v : Int, -(2 : Int) ^ 63 ≤ v ∧ v < (2 : Int) ^ 63 ∧ q = (v : ℚ) * 1000000

/-- The number written by the decimal digits `ds`, continuing from `n`. -/
def decimalValueFrom (n : Nat) (ds : List Char) : Nat :=
  ds.foldl (fun n c => n * 10 + digitVal c) n

/-- The number written by the decimal digits `ds`. -/
def decimalValue (ds : List Char) : Nat := decimalValueFrom 0 ds

/-- The integer written by an optional sign and decimal digits. -/
def signedValue (sign digits : List Char) : Int :=
  if sign = ['-'] then -(decimalValue digits : Int) else (decimalValue digits : Int)

/-- The values `parseFreq` accepts, and the integer `n` they carry: once the
surrounding white space is trimmed, an optional sign, one or more decimal
digits, one space character and a unit text without space character, the
integer being in the signed 64-bit range. -/
def FreqValue (value : List Char) (n : Int) : Prop :=
  ∃ sign digits unit, TrimSpace value = sign ++ digits ++ ' ' :: unit ∧
    (sign = [] ∨ sign = ['+'] ∨ sign = ['-']) ∧ digits ≠ [] ∧
    (∀ c ∈ digits, c.isDigit = true) ∧ ' ' ∉ unit ∧
    n = signedValue sign digits ∧ -(2 : Int) ^ 63 ≤ n ∧ n < (2 : Int) ^ 63

/-- The three fields of `gpuFreq`, to speak of them uniformly. -/
inductive Field
  | actual
  | max
  | idle
  deriving DecidableEq

/-- The key of the frequency file that sets a field. -/
def Field.key : Field → String
  | .actual => "Actual freq"
  | .max => "Max freq"
  | .idle => "Idle freq"

/-- Reading a field. -/
def Field.get : Field → gpuFreq → ℚ
  | .actual, r => r.ActualFrequency
  | .max, r => r.MaxFrequency
  | .idle, r => r.IdleFrequency

/-- Assigning a field. -/
def Field.set : Field → gpuFreq → ℚ → gpuFreq
  | .actual, r, f => { r with ActualFrequency := f }
  | .max, r, f => { r with MaxFrequency := f }
  | .idle, r, f => { r with IdleFrequency := f }

/-- The keys the scanning loop knows. -/
def knownKeys : List String := ["Actual freq", "Max freq", "Idle freq"]

/-- Line `line` carries the key `key` with the value `value`: it is the text
`key`, a colon and `value` (a known key holds no colon, so `key` is the text
before the first colon of the line). -/
def Carries (key : String) (line : String) (value : List Char) : Prop :=
  line.toList = key.toList ++ ':' :: value

/-- The frequency of the lines `lines` under the key `key` is `x`: a million
times the integer of the last line that carries the key, zero when no line
carries it. -/
def LastValue (key : String) (lines : List String) (x : ℚ) : Prop :=
  ((∀ line ∈ lines, ∀ value, ¬ Carries key line value) ∧ x = 0) ∨
  ∃ pre line post value n, lines = pre ++ line :: post ∧ Carries key line value ∧
    (∀ l ∈ post, ∀ v, ¬ Carries key l v) ∧ FreqValue value n ∧ x = (n : ℚ) * 1000000

/-- Wording of the specification: the white-space separated tokens of a text;
`cur` is the token being read, reversed. -/
def spaceTokensAux : List Char → List Char → List (List Char)
  | [], cur => if cur = [] then [] else [cur.reverse]
  | c :: cs, cur =>
    if isSpace c then
      if cur = [] then spaceTokensAux cs [] else cur.reverse :: spaceTokensAux cs []
    else spaceTokensAux cs (c :: cur)

/-- Wording of the specification: the white-space separated tokens of a text. -/
def spaceTokens (s : List Char) : List (List Char) := spaceTokensAux s []

/-- Wording of the specification: a decimal integer, with an optional sign. -/
def isDecimalInteger (tok : List Char) : Bool :=
  match tok with
  | [] => false
  | c :: cs =>
    if c = '+' ∨ c = '-' then !cs.isEmpty && cs.all Char.isDigit
    else (c :: cs).all Char.isDigit

/-- Wording of the specification: a value of the form `<integer> <unit-token>`,
two white-space separated tokens of which the first is a decimal integer. -/
def specValueForm (value : List Char) : Bool :=
  match spaceTokens value with
  | [a, _] => isDecimalInteger a
  | _ => false

/-- The failure rule as the specification words it: the frequency parse fails
exactly when some line with a known key has a value that is not of the form
`<integer> <unit-token>`. -/
def SpecFailureRule (lines : List String) : Prop :=
  (∃ e, readFrequencySysFS (some lines) = .error e) ↔
    ∃ line ∈ lines, ∃ key ∈ knownKeys, ∃ value,
      Carries key line value ∧ specValueForm value = false

/-! ## Package `time`: `ParseDuration`, `Duration.Hours`, `Duration.Seconds` -/

/-- Errors of `time.ParseDuration`. `outOfFuel` belongs to the embedding only:
it marks a loop that was given too few iterations, which `ParseDuration` never
is (`durationLoop_fuel`). -/
inductive DurationError
  | invalid
  | missingUnit
  | unknownUnit (u : String)
  | outOfFuel
  deriving DecidableEq

/-- The table `unitMap` of package `time`, in nanoseconds. The two spellings
of the micro sign are U+00B5 and U+03BC. -/
def unitMap (u : List Char) : Option Nat :=
  if u = ['n', 's'] then some 1
  else if u = ['u', 's'] then some 1000
  else if u = [Char.ofNat 0xb5, 's'] then some 1000
  else if u = [Char.ofNat 0x3bc, 's'] then some 1000
  else if u = ['m', 's'] then some 1000000
  else if u = ['s'] then some 1000000000
  else if u = ['m'] then some 60000000000
  else if u = ['h'] then some 3600000000000
  else none

/-- The function `leadingInt` of package `time`: the leading digits of `s` as
a number continuing `x`, and the rest; `none` on overflow beyond `2^63`. -/
def leadingInt : List Char → Nat → Option (Nat × List Char)
  | [], x => some (x, [])
  | c :: cs, x =>
    if c.isDigit then
      if x > 2 ^ 63 / 10 then none
      else if x * 10 + digitVal c > 2 ^ 63 then none
      else leadingInt cs (x * 10 + digitVal c)
    else some (x, c :: cs)

/-- The function `leadingFraction` of package `time`: the leading digits of
`s` as a number `x` with its `scale`, and the rest; digits beyond the capacity
are consumed without being accumulated. -/
def leadingFraction : List Char → Nat → Nat → Bool → Nat × Nat × List Char
  | [], x, scale, _ => (x, scale, [])
  | c :: cs, x, scale, overflow =>
    if c.isDigit then
      if overflow then leadingFraction cs x scale true
      else if x > (2 ^ 63 - 1) / 10 then leadingFraction cs x scale true
      else if x * 10 + digitVal c > 2 ^ 63 then leadingFraction cs x scale true
      else leadingFraction cs (x * 10 + digitVal c) (scale * 10) false
    else (x, scale, c :: cs)

/-- The end of an iteration of the loop of `time.ParseDuration`: the unit is
read from `s3` and applied to the number `v + f / scale`. The product
`f * (unit / scale)`, which Go computes in `float64`, is computed exactly. -/
def durationUnit (v f scale : Nat) (s3 : List Char) : Except DurationError (Nat × List Char) :=
  let u := s3.takeWhile (fun c => !(c = '.' || c.isDigit))
  let s4 := s3.dropWhile (fun c => !(c = '.' || c.isDigit))
  if u = [] then .error .missingUnit
  else
    match unitMap u with
    | none => .error (.unknownUnit (String.mk u))
    | some unit =>
      if v > 2 ^ 63 / unit then .error .invalid
      else if f > 0 ∧ v * unit + f * unit / scale > 2 ^ 63 then .error .invalid
      else .ok (if f > 0 then v * unit + f * unit / scale else v * unit, s4)

/-- One iteration of the loop of `time.ParseDuration` on the text `s`: a
number with optional fraction and its unit; yields the nanoseconds of the term
and the rest of the text. The tests on lengths are `!pre && !post`: no digit
was read before or after the point. -/
def durationTerm (s : List Char) : Except DurationError (Nat × List Char) :=
  match s with
  | [] => .error .invalid
  | c0 :: _ =>
    if ¬ (c0 = '.' ∨ c0.isDigit) then .error .invalid
    else
      match leadingInt s 0 with
      | none => .error .invalid
      | some (v, s1) =>
        match s1 with
        | '.' :: s2 =>
          match leadingFraction s2 0 1 false with
          | (f, scale, s3) =>
            if s.length = s1.length ∧ s2.length = s3.length then .error .invalid
            else durationUnit v f scale s3
        | _ =>
          if s.length = s1.length then .error .invalid
          else durationUnit v 0 1 s1

/-- The loop `for s != ""` of `time.ParseDuration`; `d` is the `uint64`
accumulator, `fuel` bounds the number of iterations. -/
def durationLoop : Nat → List Char → Nat → Except DurationError Nat
  | _, [], d => .ok d
  | 0, _ :: _, _ => .error .outOfFuel
  | fuel + 1, c :: cs, d =>
    match durationTerm (c :: cs) with
    | .error e => .error e
    | .ok (v, rest) =>
      if (d + v) % 2 ^ 64 > 2 ^ 63 then .error .invalid
      else durationLoop fuel rest ((d + v) % 2 ^ 64)

/-- Go `time.ParseDuration`: the duration in nanoseconds. -/
def ParseDuration (s : List Char) : Except DurationError Int :=
  let neg := s.head? = some '-'
  let s1 := if s.head? = some '-' ∨ s.head? = some '+' then s.tail else s
  if s1 = ['0'] then .ok 0
  else if s1 = [] then .error .invalid
  else
    match durationLoop s1.length s1 0 with
    | .error e => .error e
    | .ok d =>
      if neg then .ok (-(d : Int))
      else if d > 2 ^ 63 - 1 then .error .invalid
      else .ok (d : Int)

/-- Go `Duration.Hours`: whole hours plus the remaining nanoseconds over
`60 * 60 * 1e9`. -/
def Hours (d : Int) : ℚ :=
  ((d.tdiv 3600000000000 : Int) : ℚ) +
    ((d.tmod 3600000000000 : Int) : ℚ) / (60 * 60 * 1000000000)

/-- Go `Duration.Seconds`: whole seconds plus the remaining nanoseconds over
`1e9`. -/
def Seconds (d : Int) : ℚ :=
  ((d.tdiv 1000000000 : Int) : ℚ) + ((d.tmod 1000000000 : Int) : ℚ) / 1000000000

/-! ## Package `fmt`: the verb `%f` -/

/-- The character of a decimal digit. -/
def digitChar (d : Nat) : Char :=
  match d with
  | 0 => '0' | 1 => '1' | 2 => '2' | 3 => '3' | 4 => '4'
  | 5 => '5' | 6 => '6' | 7 => '7' | 8 => '8' | _ => '9'

/-- Decimal digits of `n`, most significant first, in front of `acc`; `fuel`
bounds the number of digits. -/
def natDigitsAux : Nat → Nat → List Char → List Char
  | 0, _, acc => acc
  | fuel + 1, n, acc =>
    if n < 10 then digitChar n :: acc
    else natDigitsAux fuel (n / 10) (digitChar (n % 10) :: acc)

/-- Decimal digits of `n`, most significant first (`0` is one digit). -/
def natDigits (n : Nat) : List Char := natDigitsAux (n + 1) n []

/-- Rounding of a non-negative rational to the nearest integer, ties to even. -/
def roundHalfEven (q : ℚ) : Nat :=
  let fl := ⌊q⌋.toNat
  if q - fl < 1 / 2 then fl
  else if q - fl > 1 / 2 then fl + 1
  else if fl % 2 = 0 then fl
  else fl + 1

/-- Go `fmt.Sprintf("%f", x)`: sign, integer digits, a point and six fraction
digits, the value being rounded to the nearest millionth (ties to even). -/
def formatFloat (x : ℚ) : List Char :=
  let n := roundHalfEven (|x| * 1000000)
  (if x < 0 then ['-'] else []) ++ natDigits (n / 1000000) ++
    ['.', digitChar (n / 100000 % 10), digitChar (n / 10000 % 10), digitChar (n / 1000 % 10),
      digitChar (n / 100 % 10), digitChar (n / 10 % 10), digitChar (n % 10)]

/-! ## `pkg/collector/intelgputop`: the data and `record` -/

/-- The struct `Period`. -/
structure Period where
  Duration : ℚ
  Unit : String
  deriving DecidableEq

/-- The struct `Frequency`. -/
structure Frequency where
  Requested : ℚ
  Actual : ℚ
  Unit : String
  deriving DecidableEq

/-- The struct `Interrupts`. -/
structure Interrupts where
  Count : ℚ
  Unit : String
  deriving DecidableEq

/-- The struct `Rc6`. -/
structure Rc6 where
  Value : ℚ
  Unit : String
  deriving DecidableEq

/-- The struct `Power`. -/
structure Power where
  Value : ℚ
  Unit : String
  deriving DecidableEq

/-- The struct `Engine`. -/
structure Engine where
  Busy : ℚ
  Sema : ℚ
  Wait : ℚ
  Unit : String
  deriving DecidableEq

/-- The struct `GPUTopData`. The map `Engines` of type `map[string]*Engine` is
the list of its entries in the order in which `range` visits them (any order
of the entries is a possible one); a `nil` pointer is `none`. -/
structure GPUTopData where
  Period : Period
  Frequency : Frequency
  Interrupts : Interrupts
  Rc6 : Rc6
  Power : Power
  Engines : List (String × Option Engine)
  deriving DecidableEq

/-- The metrics held by the struct `GPUTop`: the counter
`gpu_power_consumption_total` and the counter vector
`gpu_engine_seconds_total`, a value for every pair of labels `engine`,
`mode` (zero for a pair never written). -/
structure GPUTop where
  powerConsumption : ℚ
  engineUsage : String → String → ℚ

/-- Go `unicode.ToLower`: ASCII letters are mapped by the code itself, the
other runes by the case tables of package `unicode`, here `table`. -/
def unicodeToLower (table : Char → Char) (c : Char) : Char :=
  if c.toNat < 128 then c.toLower else table c

/-- Go `strings.ToLower`. -/
def ToLower (table : Char → Char) (s : String) : String :=
  String.mk (s.toList.map (unicodeToLower table))

/-- Library method `Counter.Add` of `prometheus`: adds `v` to the counter
`c`; panics (`none`) when `v` is negative. -/
def CounterAdd (c v : ℚ) : Option ℚ :=
  if v < 0 then none else some (c + v)

/-- The call `g.engineUsage.WithLabelValues(engine, mode).Add(v)`; `none` when
`Add` panics. -/
def engineAdd (g : GPUTop) (engine mode : String) (v : ℚ) : Option GPUTop :=
  match CounterAdd (g.engineUsage engine mode) v with
  | none => none
  | some x =>
    some { g with
      engineUsage := fun e m => if e = engine ∧ m = mode then x else g.engineUsage e m }

/-- The errors `record` returns. -/
inductive RecordError
  | duration (e : DurationError)
  | powerUnit (unit : String)
  | engineUnit (engine unit : String)
  deriving DecidableEq

/-- How a call of `record` ends: it returns `nil`, returns an error, or
panics. -/
inductive Returned
  | nil
  | error (e : RecordError)
  | panics
  deriving DecidableEq

/-- A call of `record`: how it ends, and the metrics at that moment. -/
structure RecordResult where
  returned : Returned
  metrics : GPUTop

/-- The loop `for engine, values := range d.Engines` of `record`, with
`seconds = duration.Seconds()`. A `nil` entry makes `values.Unit` panic. -/
def recordEngines (table : Char → Char) (seconds : ℚ) :
    List (String × Option Engine) → GPUTop → RecordResult
  | [], g => ⟨.nil, g⟩
  | (_, none) :: _, g => ⟨.panics, g⟩
  | (engine, some values) :: rest, g =>
    if values.Unit ≠ "%" then ⟨.error (.engineUnit engine values.Unit), g⟩
    else
      match engineAdd g (ToLower table engine) "busy" (seconds * values.Busy * (1 / 100)) with
      | none => ⟨.panics, g⟩
      | some g1 =>
        match engineAdd g1 (ToLower table engine) "sema" (seconds * values.Sema * (1 / 100)) with
        | none => ⟨.panics, g1⟩
        | some g2 =>
          match engineAdd g2 (ToLower table engine) "wait" (seconds * values.Wait * (1 / 100)) with
          | none => ⟨.panics, g2⟩
          | some g3 => recordEngines table seconds rest g3

/-- The method `GPUTop.record`. -/
def record (table : Char → Char) (g : GPUTop) (d : GPUTopData) : RecordResult :=
  match ParseDuration (formatFloat d.Period.Duration ++ d.Period.Unit.toList) with
  | .error e => ⟨.error (.duration e), g⟩
  | .ok duration =>
    if d.Power.Unit = "W" then
      match CounterAdd g.powerConsumption (Hours duration * d.Power.Value) with
      | none => ⟨.panics, g⟩
      | some p => recordEngines table (Seconds duration) d.Engines { g with powerConsumption := p }
    else ⟨.error (.powerUnit d.Power.Unit), g⟩

/-! ## Notions used to state the properties of `record` -/

/-- The percentage of an engine for a mode; zero for a text that is no mode. -/
def modeShare (mode : String) (e : Engine) : ℚ :=
  if mode = "busy" then e.Busy
  else if mode = "sema" then e.Sema
  else if mode = "wait" then e.Wait
  else 0

/-- The sum, over the entries of `engines` whose lower-cased name is `l`, of
`seconds × percentage of mode m × 0.01`. -/
def engineIncrement (table : Char → Char) (seconds : ℚ)
    (engines : List (String × Option Engine)) (l m : String) : ℚ :=
  (engines.map (fun p =>
    match p.2 with
    | some e => if ToLower table p.1 = l then seconds * modeShare m e * (1 / 100) else 0
    | none => 0)).sum

/-- Every entry of the map is an engine whose unit is `%`. -/
def EnginesPercent (engines : List (String × Option Engine)) : Prop :=
  ∀ p ∈ engines, ∃ e, p.2 = some e ∧ e.Unit = "%"

/-- No entry of the map would decrease a counter over `seconds`: each of its
three increments is non-negative. -/
def EnginesNonneg (seconds : ℚ) (engines : List (String × Option Engine)) : Prop :=
  ∀ p ∈ engines, ∀ e, p.2 = some e →
    0 ≤ seconds * e.Busy * (1 / 100) ∧ 0 ≤ seconds * e.Sema * (1 / 100) ∧
    0 ≤ seconds * e.Wait * (1 / 100)

/-- The metrics `g` after the engines `engines` have been added over
`seconds`. -/
def addEngines (table : Char → Char) (seconds : ℚ) (engines : List (String × Option Engine))
    (g : GPUTop) : GPUTop :=
  { powerConsumption := g.powerConsumption
    engineUsage := fun l m => g.engineUsage l m + engineIncrement table seconds engines l m }

/-- The text `ParseDuration` takes for the first unit when it follows a number
with a fraction: what stands after the leading digits of `unit`, up to the next
digit or point. -/
def unitToken (unit : List Char) : List Char :=
  (unit.dropWhile Char.isDigit).takeWhile (fun c => !(c = '.' || c.isDigit))

/-- The time-unit suffixes the claim lists; the micro sign is U+00B5. -/
def claimedUnits : List String :=
  ["ns", "us", String.mk [Char.ofNat 0xb5, 's'], "ms", "s", "m", "h"]

/-- Metrics with every counter at zero. -/
def zeroMetrics : GPUTop := ⟨0, fun _ _ => 0⟩

/-- The snapshot is valid for recording and its period parses to `duration`
nanoseconds: `period.duration` with `period.unit` parses, `power.unit` is `W`,
and every engine's unit is `%`. -/
def ValidForRecording (d : GPUTopData) (duration : Int) : Prop :=
  ParseDuration (formatFloat d.Period.Duration ++ d.Period.Unit.toList) = .ok duration ∧
  d.Power.Unit = "W" ∧ EnginesPercent d.Engines

/-- A snapshot with the given period, power and engines, the fields that
`record` does not read being zero. -/
def snapshot (period : Period) (power : Power) (engines : List (String × Option Engine)) :
    GPUTopData :=
  { Period := period, Frequency := ⟨0, 0, ""⟩, Interrupts := ⟨0, ""⟩, Rc6 := ⟨0, ""⟩,
    Power := power, Engines := engines }

/-- Example: period 1 s, power 2 W, engines Render (unit `%`) then Video (unit
`MHz`). -/
def twoEngineSnapshot : GPUTopData :=
  snapshot ⟨1, "s"⟩ ⟨2, "W"⟩
    [("Render", some ⟨50, 0, 10, "%"⟩), ("Video", some ⟨0, 0, 0, "MHz"⟩)]

/-- Example of the specification's scenario: period 1.0 s, power 2.0 W, one
engine Render with busy 50, sema 0, wait 10, unit `%`. -/
def renderSnapshot : GPUTopData :=
  snapshot ⟨1, "s"⟩ ⟨2, "W"⟩ [("Render", some ⟨50, 0, 10, "%"⟩)]

/-- Example: period −1 s, power 2 W, no engine. -/
def negativePeriodSnapshot : GPUTopData :=
  snapshot ⟨-1, "s"⟩ ⟨2, "W"⟩ []

/-- Example: period −1 s, power 0 W, one engine Render with busy 50, unit `%`. -/
def negativePeriodEngineSnapshot : GPUTopData :=
  snapshot ⟨-1, "s"⟩ ⟨0, "W"⟩ [("Render", some ⟨50, 0, 10, "%"⟩)]

/-- Example: period 1 with the unit text `s1m`, power 2 W, no engine. -/
def compoundUnitSnapshot : GPUTopData :=
  snapshot ⟨1, "s1m"⟩ ⟨2, "W"⟩ []

/-- Example: period 1 s, power 2 in the unit `kW`, one engine Render. -/
def kilowattSnapshot : GPUTopData :=
  snapshot ⟨1, "s"⟩ ⟨2, "kW"⟩ [("Render", some ⟨50, 0, 10, "%"⟩)]

/-- Example: period 1 with the unit text `x`, power 2 W, no engine. -/
def unknownUnitSnapshot : GPUTopData :=
  snapshot ⟨1, "x"⟩ ⟨2, "W"⟩ []

/-! ## Package `encoding/json`: the scanner -/

/-- The states of the scanner of `encoding/json` (its `step` functions). -/
inductive Step
  | beginValueOrEmpty | beginValue | beginStringOrEmpty | beginString
  | endValue | endTop
  | inString | inStringEsc | inStringEscU | inStringEscU1 | inStringEscU12 | inStringEscU123
  | neg | one | zero | dot | dot0 | exp | expSign | exp0
  | t | tr | tru | f | fa | fal | fals | n | nu | nul
  | failed
  deriving DecidableEq

/-- The entries of the scanner's `parseState` stack. -/
inductive ParseState
  | objectKey | objectValue | arrayValue
  deriving DecidableEq

/-- The result codes of a scanner step that the decoder distinguishes. -/
inductive ScanCode
  | continue | beginLiteral | beginObject | objectKey | objectValue | endObject
  | beginArray | arrayValue | endArray | skipSpace | scanEnd | scanError
  deriving DecidableEq

/-- The scanner: its step function and its stack (top first). -/
structure Scanner where
  step : Step
  parseState : List ParseState
  deriving DecidableEq

/-- The function `isSpace` of `encoding/json`. -/
def jsonIsSpace (c : Char) : Bool :=
  c = ' ' || c = Char.ofNat 9 || c = Char.ofNat 13 || c = Char.ofNat 10

/-- Hexadecimal digit test of the `\u` escape states. -/
def isHex (c : Char) : Bool :=
  c.isDigit || ('a' ≤ c && c ≤ 'f') || ('A' ≤ c && c ≤ 'F')

/-- The method `scanner.error`. -/
def Scanner.fail (s : Scanner) : ScanCode × Scanner := (.scanError, { s with step := .failed })

/-- The method `scanner.pushParseState`, with `maxNestingDepth = 10000`. -/
def Scanner.push (s : Scanner) (next : Step) (p : ParseState) (code : ScanCode) :
    ScanCode × Scanner :=
  if s.parseState.length + 1 ≤ 10000 then
    (code, { step := next, parseState := p :: s.parseState })
  else (.scanError, { step := .failed, parseState := p :: s.parseState })

/-- The function `stateEndTop`. -/
def stateEndTop (s : Scanner) (c : Char) : ScanCode × Scanner :=
  if jsonIsSpace c then (.scanEnd, s) else (.scanEnd, { s with step := .failed })

/-- The function `stateEndValue`; `popParseState` is inlined. -/
def stateEndValue (s : Scanner) (c : Char) : ScanCode × Scanner :=
  match s.parseState with
  | [] => stateEndTop { s with step := .endTop } c
  | ps :: rest =>
    if jsonIsSpace c then (.skipSpace, { s with step := .endValue })
    else
      match ps with
      | .objectKey =>
        if c = ':' then (.objectKey, { step := .beginValue, parseState := .objectValue :: rest })
        else s.fail
      | .objectValue =>
        if c = ',' then (.objectValue, { step := .beginString, parseState := .objectKey :: rest })
        else if c = '}' then
          (.endObject, { step := if rest = [] then .endTop else .endValue, parseState := rest })
        else s.fail
      | .arrayValue =>
        if c = ',' then (.arrayValue, { s with step := .beginValue })
        else if c = ']' then
          (.endArray, { step := if rest = [] then .endTop else .endValue, parseState := rest })
        else s.fail

/-- The function `stateBeginValue`. -/
def stateBeginValue (s : Scanner) (c : Char) : ScanCode × Scanner :=
  if jsonIsSpace c then (.skipSpace, s)
  else if c = '{' then s.push .beginStringOrEmpty .objectKey .beginObject
  else if c = '[' then s.push .beginValueOrEmpty .arrayValue .beginArray
  else if c = Char.ofNat 34 then (.beginLiteral, { s with step := .inString })
  else if c = '-' then (.beginLiteral, { s with step := .neg })
  else if c = '0' then (.beginLiteral, { s with step := .zero })
  else if c = 't' then (.beginLiteral, { s with step := .t })
  else if c = 'f' then (.beginLiteral, { s with step := .f })
  else if c = 'n' then (.beginLiteral, { s with step := .n })
  else if '1' ≤ c ∧ c ≤ '9' then (.beginLiteral, { s with step := .one })
  else s.fail

/-- The function `stateBeginString`. -/
def stateBeginString (s : Scanner) (c : Char) : ScanCode × Scanner :=
  if jsonIsSpace c then (.skipSpace, s)
  else if c = Char.ofNat 34 then (.beginLiteral, { s with step := .inString })
  else s.fail

/-- The function `state0`. -/
def state0 (s : Scanner) (c : Char) : ScanCode × Scanner :=
  if c = '.' then (.continue, { s with step := .dot })
  else if c = 'e' ∨ c = 'E' then (.continue, { s with step := .exp })
  else stateEndValue s c

/-- The function `stateESign`. -/
def stateESign (s : Scanner) (c : Char) : ScanCode × Scanner :=
  if c.isDigit then (.continue, { s with step := .exp0 }) else s.fail

/-- One byte of a fixed literal: `c` must be `want`, after which the scanner
is in `next`. -/
def literalStep (s : Scanner) (c want : Char) (next : Step) : ScanCode × Scanner :=
  if c = want then (.continue, { s with step := next }) else s.fail

/-- The call `s.step(s, c)`: one step of the scanner on the byte `c`. -/
def Scanner.next (s : Scanner) (c : Char) : ScanCode × Scanner :=
  match s.step with
  | .beginValueOrEmpty =>
    if jsonIsSpace c then (.skipSpace, s)
    else if c = ']' then stateEndValue s c
    else stateBeginValue s c
  | .beginValue => stateBeginValue s c
  | .beginStringOrEmpty =>
    if jsonIsSpace c then (.skipSpace, s)
    else if c = '}' then
      match s.parseState with
      | [] => s.fail
      | _ :: rest => stateEndValue { s with parseState := .objectValue :: rest } c
    else stateBeginString s c
  | .beginString => stateBeginString s c
  | .endValue => stateEndValue s c
  | .endTop => stateEndTop s c
  | .inString =>
    if c = Char.ofNat 34 then (.continue, { s with step := .endValue })
    else if c = Char.ofNat 92 then (.continue, { s with step := .inStringEsc })
    else if c.toNat < 0x20 then s.fail
    else (.continue, s)
  | .inStringEsc =>
    if c = 'b' ∨ c = 'f' ∨ c = 'n' ∨ c = 'r' ∨ c = 't' ∨ c = Char.ofNat 92 ∨ c = '/' ∨
        c = Char.ofNat 34 then
      (.continue, { s with step := .inString })
    else if c = 'u' then (.continue, { s with step := .inStringEscU })
    else s.fail
  | .inStringEscU => if isHex c then (.continue, { s with step := .inStringEscU1 }) else s.fail
  | .inStringEscU1 => if isHex c then (.continue, { s with step := .inStringEscU12 }) else s.fail
  | .inStringEscU12 => if isHex c then (.continue, { s with step := .inStringEscU123 }) else s.fail
  | .inStringEscU123 => if isHex c then (.continue, { s with step := .inString }) else s.fail
  | .neg =>
    if c = '0' then (.continue, { s with step := .zero })
    else if '1' ≤ c ∧ c ≤ '9' then (.continue, { s with step := .one })
    else s.fail
  | .one => if c.isDigit then (.continue, { s with step := .one }) else state0 s c
  | .zero => state0 s c
  | .dot => if c.isDigit then (.continue, { s with step := .dot0 }) else s.fail
  | .dot0 =>
    if c.isDigit then (.continue, s)
    else if c = 'e' ∨ c = 'E' then (.continue, { s with step := .exp })
    else stateEndValue s c
  | .exp =>
    if c = '+' ∨ c = '-' then (.continue, { s with step := .expSign }) else stateESign s c
  | .expSign => stateESign s c
  | .exp0 => if c.isDigit then (.continue, s) else stateEndValue s c
  | .t => literalStep s c 'r' .tr
  | .tr => literalStep s c 'u' .tru
  | .tru => literalStep s c 'e' .endValue
  | .f => literalStep s c 'a' .fa
  | .fa => literalStep s c 'l' .fal
  | .fal => literalStep s c 's' .fals
  | .fals => literalStep s c 'e' .endValue
  | .n => literalStep s c 'u' .nu
  | .nu => literalStep s c 'l' .nul
  | .nul => literalStep s c 'l' .endValue
  | .failed => (.scanError, s)

/-- The scanner after `reset`. -/
def Scanner.reset : Scanner := { step := .beginValue, parseState := [] }

/-- What the scanning loop of `Decoder.readValue` finds in the buffer. -/
inductive ScanResult
  | complete (n : Nat)
  | invalid
  | more (s : Scanner)
  deriving DecidableEq

/-- The inner loop of `Decoder.readValue` over the buffered bytes `buf`, `n`
bytes of the value having been scanned: the value ends (after `n` bytes of the
buffer in all), the scanner reports an error, or the buffer is exhausted. -/
def scanLoop : Scanner → List Char → Nat → ScanResult
  | s, [], _ => .more s
  | s, c :: cs, n =>
    match s.next c with
    | (.scanEnd, _) => .complete n
    | (.endObject, s1) =>
      match stateEndValue s1 ' ' with
      | (.scanEnd, _) => .complete (n + 1)
      | (_, s2) => scanLoop s2 cs (n + 1)
    | (.endArray, s1) =>
      match stateEndValue s1 ' ' with
      | (.scanEnd, _) => .complete (n + 1)
      | (_, s2) => scanLoop s2 cs (n + 1)
    | (.scanError, _) => .invalid
    | (_, s1) => scanLoop s1 cs (n + 1)

/-! ## Package `encoding/json`: the values and their decoding into `GPUTopData` -/

/-- A JSON value; a number is the rational its literal denotes, an object is
the list of its members in the order of the text. -/
inductive JSON
  | null
  | bool (b : Bool)
  | number (x : ℚ)
  | string (s : String)
  | array (xs : List JSON)
  | object (members : List (String × JSON))

/-- Drop the leading JSON white space. -/
def skipSpace (s : List Char) : List Char := s.dropWhile jsonIsSpace

/-- Value of a hexadecimal digit. -/
def hexVal (c : Char) : Nat :=
  if c.isDigit then c.toNat - 48
  else if 'a' ≤ c ∧ c ≤ 'f' then c.toNat - 87
  else c.toNat - 55

/-- The four hexadecimal digits of a `\u` escape (the function `getu4`), after
the `u`; the scanner has checked that they are there. -/
def getu4 (s : List Char) : Option (Nat × List Char) :=
  match s with
  | a :: b :: c :: d :: rest =>
    some (((hexVal a * 16 + hexVal b) * 16 + hexVal c) * 16 + hexVal d, rest)
  | _ => none

/-- The Unicode replacement character U+FFFD. -/
def replacementChar : Char := Char.ofNat 0xfffd

/-- The function `unquote` on the text after the opening quote: the string up
to the closing quote with its escapes resolved, and the text after the closing
quote. A `\u` escape of a surrogate half forms one character with a following
low half, else it becomes U+FFFD. `fuel` bounds the number of characters. -/
def unquote : Nat → List Char → List Char → Option (String × List Char)
  | 0, _, _ => none
  | _ + 1, [], _ => none
  | fuel + 1, c :: cs, acc =>
    if c = Char.ofNat 34 then some (String.mk acc.reverse, cs)
    else if c = Char.ofNat 92 then
      match cs with
      | [] => none
      | e :: rest =>
        if e = 'u' then
          match getu4 rest with
          | none => none
          | some (rr, rest1) =>
            if 0xd800 ≤ rr ∧ rr < 0xe000 then
              match rest1 with
              | b :: u :: rest2 =>
                if b = Char.ofNat 92 ∧ u = 'u' then
                  match getu4 rest2 with
                  | some (rr1, rest3) =>
                    if rr < 0xdc00 ∧ 0xdc00 ≤ rr1 ∧ rr1 < 0xe000 then
                      unquote fuel rest3
                        (Char.ofNat ((rr - 0xd800) * 0x400 + (rr1 - 0xdc00) + 0x10000) :: acc)
                    else unquote fuel rest1 (replacementChar :: acc)
                  | none => unquote fuel rest1 (replacementChar :: acc)
                else unquote fuel rest1 (replacementChar :: acc)
              | _ => unquote fuel rest1 (replacementChar :: acc)
            else unquote fuel rest1 (Char.ofNat rr :: acc)
        else if e = 'b' then unquote fuel rest (Char.ofNat 8 :: acc)
        else if e = 'f' then unquote fuel rest (Char.ofNat 12 :: acc)
        else if e = 'n' then unquote fuel rest (Char.ofNat 10 :: acc)
        else if e = 'r' then unquote fuel rest (Char.ofNat 13 :: acc)
        else if e = 't' then unquote fuel rest (Char.ofNat 9 :: acc)
        else unquote fuel rest (e :: acc)
    else unquote fuel cs (c :: acc)

/-- The rational denoted by a JSON number literal
`-? digits (. digits)? ([eE] [+-]? digits)?`. -/
def numberValue (lit : List Char) : ℚ :=
  let neg := lit.head? = some '-'
  let s0 := if neg then lit.tail else lit
  let ip := s0.takeWhile Char.isDigit
  let s1 := s0.dropWhile Char.isDigit
  let fp := if s1.head? = some '.' then s1.tail.takeWhile Char.isDigit else []
  let s2 := if s1.head? = some '.' then s1.tail.dropWhile Char.isDigit else s1
  let s3 := if s2.head? = some 'e' ∨ s2.head? = some 'E' then s2.tail else []
  let eneg := s3.head? = some '-'
  let ep := if s3.head? = some '-' ∨ s3.head? = some '+' then s3.tail else s3
  let mant : ℚ := (decimalValue (ip ++ fp) : ℚ) / (10 : ℚ) ^ fp.length
  let scaled : ℚ := if eneg then mant / (10 : ℚ) ^ decimalValue ep
    else mant * (10 : ℚ) ^ decimalValue ep
  if neg then -scaled else scaled

/-- Characters of a JSON number literal. -/
def isNumberChar (c : Char) : Bool :=
  c.isDigit || c = '-' || c = '+' || c = '.' || c = 'e' || c = 'E'

mutual
/-- The JSON value at the head of a text that the scanner has accepted, and
the text after it. `fuel` bounds the depth and length. -/
def parseValue : Nat → List Char → Option (JSON × List Char)
  | 0, _ => none
  | fuel + 1, s =>
    match skipSpace s with
    | [] => none
    | c :: rest =>
      if c = '{' then parseMembers fuel (skipSpace rest) []
      else if c = '[' then parseElements fuel (skipSpace rest) []
      else if c = Char.ofNat 34 then
        match unquote rest.length rest [] with
        | none => none
        | some (str, rest1) => some (.string str, rest1)
      else if c = 't' then some (.bool true, rest.drop 3)
      else if c = 'f' then some (.bool false, rest.drop 4)
      else if c = 'n' then some (.null, rest.drop 3)
      else
        some (.number (numberValue ((c :: rest).takeWhile isNumberChar)),
          (c :: rest).dropWhile isNumberChar)
/-- The members of an object, after its opening brace or after a member. -/
def parseMembers : Nat → List Char → List (String × JSON) → Option (JSON × List Char)
  | 0, _, _ => none
  | _ + 1, [], _ => none
  | fuel + 1, c :: rest, acc =>
    if c = '}' then some (.object acc.reverse, rest)
    else if c = ',' then parseMembers fuel (skipSpace rest) acc
    else if c = Char.ofNat 34 then
      match unquote rest.length rest [] with
      | none => none
      | some (key, rest1) =>
        match skipSpace rest1 with
        | [] => none
        | _ :: rest2 =>
          match parseValue fuel rest2 with
          | none => none
          | some (v, rest3) => parseMembers fuel (skipSpace rest3) ((key, v) :: acc)
    else none
/-- The elements of an array, after its opening bracket or after an element. -/
def parseElements : Nat → List Char → List JSON → Option (JSON × List Char)
  | 0, _, _ => none
  | _ + 1, [], _ => none
  | fuel + 1, c :: rest, acc =>
    if c = ']' then some (.array acc.reverse, rest)
    else if c = ',' then parseElements fuel (skipSpace rest) acc
    else
      match parseValue fuel (c :: rest) with
      | none => none
      | some (v, rest1) => parseElements fuel (skipSpace rest1) (v :: acc)
end

/-- The errors of `Decoder.Decode`; `internal` belongs to the embedding only:
it marks a text that the scanner accepted and `parseValue` could not read. -/
inductive DecodeError
  | invalidJSON
  | unexpectedEOF
  | eof
  | typeMismatch
  | internal
  deriving DecidableEq

/-- Case folding of a key character to compare it with a lower-case ASCII
field name (`bytes.EqualFold`): the ASCII capitals, the long s U+017F and the
Kelvin sign U+212A fold to lower-case ASCII letters. -/
def foldChar (c : Char) : Char :=
  if c.toNat = 0x17f then 's'
  else if c.toNat = 0x212a then 'k'
  else c.toLower

/-- The JSON key `key` selects the struct field with the lower-case ASCII tag
`name`: they are equal up to case. -/
def fieldIs (key : String) (name : String) : Bool :=
  key.toList.map foldChar = name.toList

/-- Largest magnitude below which a decimal number rounds to a finite
`float64`: `2^1024 − 2^970`. -/
def floatLimit : ℚ := 2 ^ 1024 - 2 ^ 970

/-- Storing a JSON value into a `float64` field: `null` leaves it, a number in
range sets it, anything else is an `UnmarshalTypeError`. -/
def storeFloat (old : ℚ) (v : JSON) : Except DecodeError ℚ :=
  match v with
  | .null => .ok old
  | .number x => if |x| < floatLimit then .ok x else .error .typeMismatch
  | _ => .error .typeMismatch

/-- Storing a JSON value into a `string` field. -/
def storeString (old : String) (v : JSON) : Except DecodeError String :=
  match v with
  | .null => .ok old
  | .string s => .ok s
  | _ => .error .typeMismatch

/-- The members of a JSON object stored one after the other by `step` into a
struct; a key that selects no field is skipped by `step` itself. -/
def storeMembers {α : Type} (step : α → String → JSON → Except DecodeError α) :
    α → List (String × JSON) → Except DecodeError α
  | a, [] => .ok a
  | a, (k, v) :: rest =>
    match step a k v with
    | .error e => .error e
    | .ok a1 => storeMembers step a1 rest

/-- Storing a JSON value into a struct: `null` leaves it, an object stores its
members into the fields they select, the other fields keeping their values. -/
def storeStruct {α : Type} (step : α → String → JSON → Except DecodeError α) (old : α)
    (v : JSON) : Except DecodeError α :=
  match v with
  | .null => .ok old
  | .object members => storeMembers step old members
  | _ => .error .typeMismatch

/-- One member stored into a `Period`. -/
def Period.store (p : Period) (k : String) (v : JSON) : Except DecodeError Period :=
  if fieldIs k "duration" then (storeFloat p.Duration v).map (fun x => { p with Duration := x })
  else if fieldIs k "unit" then (storeString p.Unit v).map (fun x => { p with Unit := x })
  else .ok p

/-- One member stored into a `Frequency`. -/
def Frequency.store (p : Frequency) (k : String) (v : JSON) : Except DecodeError Frequency :=
  if fieldIs k "requested" then
    (storeFloat p.Requested v).map (fun x => { p with Requested := x })
  else if fieldIs k "actual" then (storeFloat p.Actual v).map (fun x => { p with Actual := x })
  else if fieldIs k "unit" then (storeString p.Unit v).map (fun x => { p with Unit := x })
  else .ok p

/-- One member stored into an `Interrupts`. -/
def Interrupts.store (p : Interrupts) (k : String) (v : JSON) : Except DecodeError Interrupts :=
  if fieldIs k "count" then (storeFloat p.Count v).map (fun x => { p with Count := x })
  else if fieldIs k "unit" then (storeString p.Unit v).map (fun x => { p with Unit := x })
  else .ok p

/-- One member stored into an `Rc6`. -/
def Rc6.store (p : Rc6) (k : String) (v : JSON) : Except DecodeError Rc6 :=
  if fieldIs k "value" then (storeFloat p.Value v).map (fun x => { p with Value := x })
  else if fieldIs k "unit" then (storeString p.Unit v).map (fun x => { p with Unit := x })
  else .ok p

/-- One member stored into a `Power`. -/
def Power.store (p : Power) (k : String) (v : JSON) : Except DecodeError Power :=
  if fieldIs k "value" then (storeFloat p.Value v).map (fun x => { p with Value := x })
  else if fieldIs k "unit" then (storeString p.Unit v).map (fun x => { p with Unit := x })
  else .ok p

/-- One member stored into an `Engine`. -/
def Engine.store (p : Engine) (k : String) (v : JSON) : Except DecodeError Engine :=
  if fieldIs k "busy" then (storeFloat p.Busy v).map (fun x => { p with Busy := x })
  else if fieldIs k "sema" then (storeFloat p.Sema v).map (fun x => { p with Sema := x })
  else if fieldIs k "wait" then (storeFloat p.Wait v).map (fun x => { p with Wait := x })
  else if fieldIs k "unit" then (storeString p.Unit v).map (fun x => { p with Unit := x })
  else .ok p

/-- Storing a JSON value into a fresh map element of type `*Engine`: `null`
gives the `nil` pointer, an object a new `Engine` filled from zero. -/
def storeEnginePtr (v : JSON) : Except DecodeError (Option Engine) :=
  match v with
  | .null => .ok none
  | .object members => (storeMembers Engine.store ⟨0, 0, 0, ""⟩ members).map some
  | _ => .error .typeMismatch

/-- The assignment `m[key] = e`: the entry of `key` is replaced, or added. -/
def mapSet (m : List (String × Option Engine)) (key : String) (e : Option Engine) :
    List (String × Option Engine) :=
  match m with
  | [] => [(key, e)]
  | (k, x) :: rest => if k = key then (key, e) :: rest else (k, x) :: mapSet rest key e

/-- The members of a JSON object stored into the map `Engines`: each member
sets the entry of its key to a fresh element; the other entries stay. -/
def storeEngineMembers :
    List (String × Option Engine) → List (String × JSON) →
      Except DecodeError (List (String × Option Engine))
  | m, [] => .ok m
  | m, (k, v) :: rest =>
    match storeEnginePtr v with
    | .error e => .error e
    | .ok e => storeEngineMembers (mapSet m k e) rest

/-- Storing a JSON value into the field `Engines`: `null` sets the map to
`nil`, an object is stored into the existing map (a new one if it is `nil`). -/
def storeEngines (m : List (String × Option Engine)) (v : JSON) :
    Except DecodeError (List (String × Option Engine)) :=
  match v with
  | .null => .ok []
  | .object members => storeEngineMembers m members
  | _ => .error .typeMismatch

/-- One member stored into a `GPUTopData`. -/
def GPUTopData.store (d : GPUTopData) (k : String) (v : JSON) : Except DecodeError GPUTopData :=
  if fieldIs k "period" then
    (storeStruct Period.store d.Period v).map (fun x => { d with Period := x })
  else if fieldIs k "frequency" then
    (storeStruct Frequency.store d.Frequency v).map (fun x => { d with Frequency := x })
  else if fieldIs k "interrupts" then
    (storeStruct Interrupts.store d.Interrupts v).map (fun x => { d with Interrupts := x })
  else if fieldIs k "rc6" then
    (storeStruct Rc6.store d.Rc6 v).map (fun x => { d with Rc6 := x })
  else if fieldIs k "power" then
    (storeStruct Power.store d.Power v).map (fun x => { d with Power := x })
  else if fieldIs k "engines" then
    (storeEngines d.Engines v).map (fun x => { d with Engines := x })
  else .ok d

/-- The unmarshalling of one JSON text into the existing `data` (what
`Decode(&data)` does once the value is read). An `UnmarshalTypeError` is
reported at once: `Run` returns on it and does not use `data` again. -/
def unmarshal (data : GPUTopData) (text : List Char) : Except DecodeError GPUTopData :=
  match parseValue (text.length + 1) text with
  | none => .error .internal
  | some (v, _) => storeStruct GPUTopData.store data v

/-- The zero value of `GPUTopData`, as `var data GPUTopData` declares it. -/
def zeroData : GPUTopData :=
  { Period := ⟨0, ""⟩, Frequency := ⟨0, 0, ""⟩, Interrupts := ⟨0, ""⟩, Rc6 := ⟨0, ""⟩,
    Power := ⟨0, ""⟩, Engines := [] }

/-! ## Packages `bufio` and `encoding/json`: the reader and the decoder

Sizes are counted in characters; they are byte counts for ASCII streams. -/

/-- A `Read` of at most `n` bytes on the pipe of the subprocess. The pipe is
the list of the chunks that its successive reads find available; an empty
result is the end of the stream (`io.EOF`). -/
def pipeRead (n : Nat) : List (List Char) → List Char × List (List Char)
  | [] => ([], [])
  | chunk :: rest =>
    if chunk = [] then pipeRead n rest
    else if chunk.length ≤ n then (chunk, rest)
    else (chunk.take n, chunk.drop n :: rest)

/-- The state of the `bufio.Reader` `bufOut`: the pipe it reads from and its
buffered, unread bytes. Its buffer holds 4096 bytes. -/
structure Reader where
  rd : List (List Char)
  buf : List Char
  deriving DecidableEq

/-- The method `Reader.Read` for a destination of `n` bytes: buffered bytes
first; on an empty buffer one read of the pipe, directly into the destination
when it is at least as large as the buffer. -/
def Reader.Read (b : Reader) (n : Nat) : List Char × Reader :=
  if b.buf = [] then
    if n ≥ 4096 then ((pipeRead n b.rd).1, { rd := (pipeRead n b.rd).2, buf := [] })
    else (((pipeRead 4096 b.rd).1).take n,
      { rd := (pipeRead 4096 b.rd).2, buf := ((pipeRead 4096 b.rd).1).drop n })
  else (b.buf.take n, { b with buf := b.buf.drop n })

/-- The method `Reader.ReadByte`: the next byte, the buffer being filled from
the pipe when it is empty; `none` is the error `io.EOF`. -/
def Reader.ReadByte (b : Reader) : Option Char × Reader :=
  match b.buf with
  | c :: cs => (some c, { b with buf := cs })
  | [] =>
    match (pipeRead 4096 b.rd).1 with
    | [] => (none, { rd := (pipeRead 4096 b.rd).2, buf := [] })
    | c :: cs => (some c, { rd := (pipeRead 4096 b.rd).2, buf := cs })

/-- The method `Reader.UnreadByte` after a `ReadByte` that returned `c`. -/
def Reader.UnreadByte (b : Reader) (c : Char) : Reader := { b with buf := c :: b.buf }

/-- The state of a `json.Decoder`: the bytes it has read from its reader and
not yet decoded (`dec.buf[dec.scanp:]`), the capacity of its buffer, and its
sticky error. -/
structure Decoder where
  buf : List Char
  cap : Nat
  err : Option DecodeError
  deriving DecidableEq

/-- The function `json.NewDecoder`. -/
def NewDecoder : Decoder := { buf := [], cap := 0, err := none }

/-- The capacity of the decoder's buffer after `refill` made room: at least
`minRead = 512` free bytes. -/
def refillCap (dec : Decoder) : Nat :=
  if dec.cap - dec.buf.length < 512 then 2 * dec.cap + 512 else dec.cap

/-- The method `Decoder.readValue`: the length of the next value in the
decoder's buffer, which is refilled from the reader as long as the value is
incomplete. `fuel` bounds the number of refills. -/
def readValue : Nat → Decoder → Reader → Except DecodeError Nat × Decoder × Reader
  | 0, dec, r => (.error .internal, dec, r)
  | fuel + 1, dec, r =>
    match scanLoop .reset dec.buf 0 with
    | .complete n => (.ok n, dec, r)
    | .invalid => (.error .invalidJSON, { dec with err := some .invalidJSON }, r)
    | .more s =>
      match r.Read (refillCap dec - dec.buf.length) with
      | ([], r1) =>
        if (s.next ' ').1 = .scanEnd then
          (.ok dec.buf.length, { dec with cap := refillCap dec }, r1)
        else if dec.buf.any (fun c => !jsonIsSpace c) then
          (.error .unexpectedEOF, { dec with cap := refillCap dec, err := some .unexpectedEOF }, r1)
        else (.error .eof, { dec with cap := refillCap dec, err := some .eof }, r1)
      | (data, r1) => readValue fuel { dec with buf := dec.buf ++ data, cap := refillCap dec } r1

/-- The method `Decoder.Decode(&data)`: the next value is read and
unmarshalled into the existing `data`. -/
def Decode (fuel : Nat) (dec : Decoder) (r : Reader) (data : GPUTopData) :
    Except DecodeError GPUTopData × Decoder × Reader :=
  match dec.err with
  | some e => (.error e, dec, r)
  | none =>
    match readValue fuel dec r with
    | (.error e, dec1, r1) => (.error e, dec1, r1)
    | (.ok n, dec1, r1) =>
      (unmarshal data (dec1.buf.take n), { dec1 with buf := dec1.buf.drop n }, r1)

/-! ## `pkg/collector/intelgputop`: `Run` -/

/-- How `Run` ends. `outOfFuel` belongs to the embedding only. -/
inductive RunError
  | start
  | decode (e : DecodeError)
  | readByte
  | panics
  | outOfFuel
  deriving DecidableEq

/-- A run of `Run`: how it ended, the snapshots passed to `record` in order,
the errors of `record` that were logged, and the metrics. -/
structure RunResult where
  returned : RunError
  recorded : List GPUTopData
  logged : List RecordError
  metrics : GPUTop

/-- The loop `for` of `Run`. `fuel` bounds its iterations and the refills of
each `Decode`. -/
def runLoop (table : Char → Char) :
    Nat → Decoder → Reader → GPUTopData → GPUTop → List GPUTopData → List RecordError →
      RunResult
  | 0, _, _, _, g, recorded, logged => ⟨.outOfFuel, recorded, logged, g⟩
  | fuel + 1, dec, bufOut, data, g, recorded, logged =>
    match Decode (fuel + 1) dec bufOut data with
    | (.error e, _, _) => ⟨.decode e, recorded, logged, g⟩
    | (.ok data1, dec1, bufOut1) =>
      match (record table g data1).returned with
      | .panics => ⟨.panics, recorded ++ [data1], logged, (record table g data1).metrics⟩
      | ret =>
        match bufOut1.ReadByte with
        | (none, _) =>
          ⟨.readByte, recorded ++ [data1],
            (match ret with | .error e => logged ++ [e] | _ => logged),
            (record table g data1).metrics⟩
        | (some b, bufOut2) =>
          if b ≠ ',' then
            runLoop table fuel dec1 (bufOut2.UnreadByte b) data1 (record table g data1).metrics
              (recorded ++ [data1]) (match ret with | .error e => logged ++ [e] | _ => logged)
          else
            runLoop table fuel NewDecoder bufOut2 data1 (record table g data1).metrics
              (recorded ++ [data1]) (match ret with | .error e => logged ++ [e] | _ => logged)

/-- The method `GPUTop.Run`. `stdout` is `none` when the subprocess cannot be
started, else the chunks that the successive reads of its standard output
deliver. Every iteration of the loop consumes a byte, so one iteration more
than there are bytes is enough. -/
def Run (table : Char → Char) (g : GPUTop) (stdout : Option (List (List Char))) : RunResult :=
  match stdout with
  | none => ⟨.start, [], [], g⟩
  | some chunks =>
    runLoop table ((chunks.map List.length).sum + 1) NewDecoder { rd := chunks, buf := [] }
      zeroData g [] []

/-! ## Example streams -/

/-- The text `{"a":1},{"a":2}` of the specification. -/
def twoObjects : List Char := "\x7b\"a\":1\x7d,\x7b\"a\":2\x7d".toList

/-- The text
`{"period":{"duration":1,"unit":"s"},"power":{"value":2,"unit":"W"},
"engines":{"Render":{"busy":50,"unit":"%"}}}` (without the line break). -/
def firstObject : List Char :=
  ("\x7b\"period\":\x7b\"duration\":1,\"unit\":\"s\"\x7d,\"power\":\x7b\"value\":2," ++
    "\"unit\":\"W\"\x7d,\"engines\":\x7b\"Render\":\x7b\"busy\":50,\"unit\":\"%\"\x7d\x7d\x7d").toList

/-- The text
`{"period":{"duration":1,"unit":"s"},"engines":{"Video":{"busy":10,"unit":"%"}}}`:
an object without `power` and without the engine `Render`. -/
def secondObject : List Char :=
  ("\x7b\"period\":\x7b\"duration\":1,\"unit\":\"s\"\x7d," ++
    "\"engines\":\x7b\"Video\":\x7b\"busy\":10,\"unit\":\"%\"\x7d\x7d\x7d").toList

/-- The snapshot that `firstObject` decodes to. -/
def firstSnapshot : GPUTopData :=
  snapshot ⟨1, "s"⟩ ⟨2, "W"⟩ [("Render", some ⟨50, 0, 0, "%"⟩)]

/-- The snapshot that `secondObject` decodes to on its own. -/
def secondSnapshot : GPUTopData :=
  snapshot ⟨1, "s"⟩ ⟨0, ""⟩ [("Video", some ⟨10, 0, 0, "%"⟩)]

/-- The snapshot that `Run` passes to `record` for `secondObject` when it
follows `firstObject`: power and the engine `Render` are those of the first. -/
def staleSnapshot : GPUTopData :=
  snapshot ⟨1, "s"⟩ ⟨2, "W"⟩
    [("Render", some ⟨50, 0, 0, "%"⟩), ("Video", some ⟨10, 0, 0, "%"⟩)]

/-- The text `{}`. -/
def emptyObject : List Char := "\x7b\x7d".toList

/-! # Theorems -/

/-! ## Lemmas on `pkg/collector/sysfs` -/


theorem linearLoop_length (width : ℚ) (n : Nat) (start : ℚ) :
    (linearLoop width n start).length = n := by
  induction n generalizing start with
  | zero => rfl
  | succ n ih => simp [linearLoop, ih]

theorem linearLoop_getElem? (width : ℚ) (n : Nat) (start : ℚ) (i : Nat) (hi : i < n) :
    (linearLoop width n start)[i]? = some (start + i * width) := by
  induction n generalizing start i with
  | zero => omega
  | succ n ih =>
    cases i with
    | zero => simp [linearLoop]
    | succ i =>
      simp only [linearLoop, List.getElem?_cons_succ]
      rw [ih (start + width) i (by omega)]
      congr 1
      push_cast
      ring

theorem truncate_nonneg {x : ℚ} (hx : 0 ≤ x) : truncate x = ⌊x⌋ := by
  simp [truncate, hx]

theorem Buckets_general (f : gpuFreq) (step : ℚ)
    (hstep : 0 < step) (hge : step ≤ f.MaxFrequency - f.IdleFrequency)
    (hfit : (f.MaxFrequency - f.IdleFrequency) / step < 2 ^ 63) :
    ∃ bs, f.Buckets step = .value bs ∧
      (bs.length : Int) = ⌊(f.MaxFrequency - f.IdleFrequency) / step⌋ ∧
      ∀ i, i < bs.length → bs[i]? = some (f.IdleFrequency + i * step) := by
  set q := (f.MaxFrequency - f.IdleFrequency) / step with hq
  have hq1 : 1 ≤ q := by
    rw [hq, le_div_iff₀ hstep]; simpa using hge
  have hq0 : 0 ≤ q := le_trans zero_le_one hq1
  have hfl1 : 1 ≤ ⌊q⌋ := by
    rw [Int.le_floor]; simpa using hq1
  have hflt : ⌊q⌋ < (2 : Int) ^ 63 := by
    rw [Int.floor_lt]; simpa using hfit
  have htr : truncate q = ⌊q⌋ := truncate_nonneg hq0
  have hconv : floatToInt q = some ⌊q⌋ := by
    unfold floatToInt
    rw [htr, if_pos]
    constructor
    · have : (0:Int) ≤ (2:Int)^63 := by norm_num
      omega
    · exact hflt
  refine ⟨linearLoop step ⌊q⌋.toNat f.IdleFrequency, ?_, ?_, ?_⟩
  · unfold gpuFreq.Buckets
    rw [if_neg (ne_of_gt hstep), ← hq, hconv]
    simp only [LinearBuckets]
    rw [if_neg (by omega)]
  · rw [linearLoop_length]; omega
  · intro i hi
    rw [linearLoop_length] at hi
    exact linearLoop_getElem? step _ _ i hi

theorem ParseInt_range {s : List Char} {v : Int} (h : ParseInt s = .ok v) :
    -(2 : Int) ^ 63 ≤ v ∧ v < (2 : Int) ^ 63 := by
  unfold ParseInt at h
  cases s with
  | nil => simp at h
  | cons c cs =>
    simp only at h
    split at h
    · simp at h
    · simp at h
    · rename_i un _
      by_cases hneg : c = '-'
      · simp only [hneg, decide_True, not_true_eq_false, false_and, if_false, true_and, if_true] at h
        split_ifs at h with h2
        simp only [Except.ok.injEq] at h
        subst h
        norm_num at h2 ⊢
        omega
      · simp only [hneg, decide_False, not_false_eq_true, true_and, false_and, if_false] at h
        split_ifs at h with h2
        simp only [Except.ok.injEq] at h
        subst h
        norm_num at h2 ⊢
        omega

theorem parseFreq_wholeMHz {s : List Char} {q : ℚ} (h : parseFreq s = .ok q) : wholeMHz q := by
  unfold parseFreq at h
  split at h
  · split at h
    · simp at h
    · rename_i v hv
      simp only [Except.ok.injEq] at h
      exact ⟨v, (ParseInt_range hv).1, (ParseInt_range hv).2, h.symm⟩
  · simp at h

theorem wholeMHz_zero : wholeMHz 0 := ⟨0, by norm_num, by norm_num, by norm_num⟩

theorem scanLine_wholeMHz {r r1 : gpuFreq} {text : String}
    (hr : wholeMHz r.ActualFrequency ∧ wholeMHz r.IdleFrequency ∧ wholeMHz r.MaxFrequency)
    (h : scanLine r text = .ok r1) :
    wholeMHz r1.ActualFrequency ∧ wholeMHz r1.IdleFrequency ∧ wholeMHz r1.MaxFrequency := by
  unfold scanLine at h
  split at h
  · split_ifs at h
    all_goals first
      | (split at h
         · simp at h
         · rename_i f hf
           simp only [Except.ok.injEq] at h
           subst h
           have := parseFreq_wholeMHz hf
           simp [hr.1, hr.2.1, hr.2.2, this])
      | (simp only [Except.ok.injEq] at h
         subst h
         exact hr)
  · simp only [Except.ok.injEq] at h
    subst h
    exact hr

theorem scanLines_wholeMHz {r r1 : gpuFreq} {lines : List String}
    (hr : wholeMHz r.ActualFrequency ∧ wholeMHz r.IdleFrequency ∧ wholeMHz r.MaxFrequency)
    (h : scanLines r lines = .ok r1) :
    wholeMHz r1.ActualFrequency ∧ wholeMHz r1.IdleFrequency ∧ wholeMHz r1.MaxFrequency := by
  induction lines generalizing r with
  | nil =>
    simp only [scanLines, Except.ok.injEq] at h
    subst h; exact hr
  | cons text rest ih =>
    simp only [scanLines] at h
    split at h
    · simp at h
    · rename_i r2 h2
      exact ih (scanLine_wholeMHz hr h2) h

theorem Buckets_panics_of_le {f : gpuFreq}
    (hi : wholeMHz f.IdleFrequency) (hm : wholeMHz f.MaxFrequency)
    (hle : f.MaxFrequency ≤ f.IdleFrequency) : f.Buckets 50000000 = .panics := by
  obtain ⟨a, ha1, ha2, ha⟩ := hi
  obtain ⟨b, hb1, hb2, hb⟩ := hm
  have hba : b ≤ a := by
    rw [ha, hb] at hle
    have : (b : ℚ) ≤ a := by linarith
    exact_mod_cast this
  set q : ℚ := (f.MaxFrequency - f.IdleFrequency) / 50000000 with hq
  have hqv : q = ((b - a : Int) : ℚ) / 50 := by
    rw [hq, ha, hb]; push_cast; ring
  have hq0 : q ≤ 0 := by
    rw [hqv]
    apply div_nonpos_of_nonpos_of_nonneg
    · exact_mod_cast (by omega : b - a ≤ 0)
    · norm_num
  have hqlo : -(2:ℚ)^63 < q := by
    rw [hqv, lt_div_iff₀ (by norm_num)]
    have : -(2:Int)^64 < b - a := by
      have : (2:Int)^64 = 2 * 2^63 := by norm_num
      omega
    have h2 : ((-(2:Int)^64 : Int) : ℚ) < ((b - a : Int) : ℚ) := by exact_mod_cast this
    push_cast at h2 ⊢
    linarith
  have htr0 : truncate q ≤ 0 := by
    unfold truncate
    split_ifs with h0
    · have : q = 0 := le_antisymm hq0 h0
      simp [this]
    · rw [Int.ceil_le]; simpa using hq0
  have htrlo : -(2:Int)^63 ≤ truncate q := by
    unfold truncate
    split_ifs with h0
    · have : q = 0 := le_antisymm hq0 h0
      simp [this]
    · have h1 : ((-(2:Int)^63 : Int) : ℚ) ≤ q := by push_cast; linarith
      exact le_trans (Int.le_ceil_iff.mpr (by linarith)) (le_refl _)
  have hconv : floatToInt q = some (truncate q) := by
    unfold floatToInt
    rw [if_pos]
    exact ⟨htrlo, by have : (0:Int) < (2:Int)^63 := by norm_num
                     omega⟩
  unfold gpuFreq.Buckets
  rw [if_neg (by norm_num), ← hq, hconv]
  simp only [LinearBuckets]
  rw [if_pos (by omega)]

theorem New_panics_of_le {lines : List String} {f : gpuFreq}
    (hread : readFrequencySysFS (some lines) = .ok f)
    (hle : f.MaxFrequency ≤ f.IdleFrequency) : New (some lines) = .panics := by
  have hw := scanLines_wholeMHz (r := ⟨0, 0, 0⟩) ⟨wholeMHz_zero, wholeMHz_zero, wholeMHz_zero⟩ hread
  unfold New
  rw [hread]
  simp only [Buckets_panics_of_le hw.2.1 hw.2.2 hle]

theorem Split_ne_nil (sep : Char) (s : List Char) : Split sep s ≠ [] := by
  induction s with
  | nil => simp [Split]
  | cons c cs ih =>
    unfold Split
    split_ifs
    · simp
    · split <;> simp

theorem Split_single (sep : Char) (s p : List Char) :
    Split sep s = [p] ↔ s = p ∧ sep ∉ s := by
  induction s generalizing p with
  | nil => simp [Split, eq_comm]
  | cons c cs ih =>
    unfold Split
    split_ifs with h
    · subst h
      simp [Split_ne_nil]
    · split
      · rename_i h0; exact absurd h0 (Split_ne_nil _ _)
      · rename_i q qs hq
        constructor
        · intro h1
          simp only [List.cons.injEq] at h1
          obtain ⟨h1, h2⟩ := h1
          subst h2
          have := (ih q).mp hq
          subst h1
          refine ⟨by rw [this.1], ?_⟩
          simp only [List.mem_cons, not_or]
          exact ⟨fun e => h e.symm, this.2⟩
        · rintro ⟨h1, h2⟩
          subst h1
          simp only [List.mem_cons, not_or] at h2
          have := (ih cs).mpr ⟨rfl, h2.2⟩
          rw [this] at hq
          simp only [List.cons.injEq] at hq
          rw [← hq.1, ← hq.2]

theorem Split_pair (sep : Char) (s p0 p1 : List Char) :
    Split sep s = [p0, p1] ↔ s = p0 ++ sep :: p1 ∧ sep ∉ p0 ∧ sep ∉ p1 := by
  induction s generalizing p0 with
  | nil => simp [Split]
  | cons c cs ih =>
    unfold Split
    split_ifs with h
    · subst h
      simp only [List.cons.injEq]
      rw [Split_single]
      constructor
      · rintro ⟨h1, h2, h3⟩
        subst h1; subst h2
        exact ⟨rfl, by simp, h3⟩
      · rintro ⟨h1, h2, h3⟩
        cases p0 with
        | nil =>
          simp only [List.nil_append, List.cons.injEq, true_and] at h1
          subst h1
          exact ⟨rfl, rfl, h3⟩
        | cons a p =>
          simp only [List.cons_append, List.cons.injEq] at h1
          exact absurd (by rw [← h1.1]; simp) h2
    · split
      · rename_i h0; exact absurd h0 (Split_ne_nil _ _)
      · rename_i q qs hq
        constructor
        · intro h1
          simp only [List.cons.injEq] at h1
          obtain ⟨h1, h2⟩ := h1
          subst h2; subst h1
          have := (ih q).mp hq
          refine ⟨by rw [this.1]; rfl, ?_, this.2.2⟩
          simp only [List.mem_cons, not_or]
          exact ⟨fun e => h e.symm, this.2.1⟩
        · rintro ⟨h1, h2, h3⟩
          cases p0 with
          | nil =>
            simp only [List.nil_append, List.cons.injEq] at h1
            exact absurd h1.1 h
          | cons a p =>
            simp only [List.cons_append, List.cons.injEq] at h1
            obtain ⟨h1a, h1b⟩ := h1
            subst h1a
            simp only [List.mem_cons, not_or] at h2
            have := (ih p).mpr ⟨h1b, h2.2, h3⟩
            rw [this] at hq
            simp only [List.cons.injEq] at hq
            rw [← hq.1, ← hq.2]

theorem decimalValueFrom_ge (n : Nat) (ds : List Char) : n ≤ decimalValueFrom n ds := by
  induction ds generalizing n with
  | nil => simp [decimalValueFrom]
  | cons c cs ih =>
    simp only [decimalValueFrom, List.foldl_cons]
    have := ih (n * 10 + digitVal c)
    simp only [decimalValueFrom] at this
    omega

theorem maxUint64_eq : maxUint64 = 18446744073709551615 := by
  norm_num [maxUint64]

theorem ParseUintLoop_ok (s : List Char) (n v : Nat) :
    ParseUintLoop s n = .ok v ↔
      (∀ c ∈ s, c.isDigit = true) ∧ v = decimalValueFrom n s ∧ (s ≠ [] → v ≤ maxUint64) := by
  induction s generalizing n with
  | nil =>
    simp only [ParseUintLoop, decimalValueFrom, List.foldl_nil, Except.ok.injEq, List.not_mem_nil,
      false_implies, implies_true, ne_eq, not_true_eq_false, true_and, and_true]
    exact eq_comm
  | cons c cs ih =>
    have hge := decimalValueFrom_ge (n * 10 + digitVal c) cs
    have hval : decimalValueFrom n (c :: cs) = decimalValueFrom (n * 10 + digitVal c) cs := rfl
    have hm := maxUint64_eq
    rw [ParseUintLoop]
    dsimp only
    by_cases hd : c.isDigit = true
    · rw [if_pos hd]
      by_cases h1 : n ≥ maxUint64 / 10 + 1
      · rw [if_pos h1]
        simp only [false_iff, not_and, reduceCtorEq]
        intro _ hv hmax
        have := hmax (by simp)
        rw [hv, hval] at this
        rw [hm] at h1 this
        omega
      · rw [if_neg h1]
        by_cases h2 : n * 10 + digitVal c > maxUint64
        · rw [if_pos h2]
          simp only [false_iff, not_and, reduceCtorEq]
          intro _ hv hmax
          have := hmax (by simp)
          rw [hv, hval] at this
          omega
        · rw [if_neg h2, ih]
          simp only [List.mem_cons, forall_eq_or_imp, hd, true_and, hval, ne_eq, not_false_eq_true,
            true_implies, reduceCtorEq]
          constructor
          · rintro ⟨h3, h4, h5⟩
            refine ⟨h3, h4, ?_⟩
            cases cs with
            | nil =>
              simp only [decimalValueFrom, List.foldl_nil] at h4
              omega
            | cons a as => exact h5 (by simp)
          · rintro ⟨h3, h4, h5⟩
            exact ⟨h3, h4, fun _ => h5⟩
    · rw [if_neg hd]
      simp only [false_iff, not_and, reduceCtorEq]
      intro hall
      exact absurd (hall c (by simp)) hd

theorem ParseUint_ok (s : List Char) (v : Nat) :
    ParseUint s = .ok v ↔
      s ≠ [] ∧ (∀ c ∈ s, c.isDigit = true) ∧ v = decimalValue s ∧ v ≤ maxUint64 := by
  unfold ParseUint
  by_cases hs : s = []
  · simp [hs]
  · rw [if_neg hs, ParseUintLoop_ok]
    simp [hs, decimalValue]

theorem ParseInt_ok (s : List Char) (v : Int) :
    ParseInt s = .ok v ↔
      ∃ sign digits, s = sign ++ digits ∧ (sign = [] ∨ sign = ['+'] ∨ sign = ['-']) ∧
        digits ≠ [] ∧ (∀ c ∈ digits, c.isDigit = true) ∧
        v = signedValue sign digits ∧ -(2 : Int) ^ 63 ≤ v ∧ v < (2 : Int) ^ 63 := by
  have hm := maxUint64_eq
  have hplus : ('+' : Char).isDigit = false := by decide
  have hminus : ('-' : Char).isDigit = false := by decide
  constructor
  · intro h
    have hr := ParseInt_range h
    unfold ParseInt at h
    cases s with
    | nil => simp at h
    | cons c cs =>
      simp only at h
      split at h
      · simp at h
      · simp at h
      · rename_i un hun
        rw [ParseUint_ok] at hun
        obtain ⟨hne, hall, hval, _⟩ := hun
        by_cases hneg : c = '-'
        · simp only [hneg, or_true, if_true, decide_True, not_true_eq_false, false_and, if_false,
            true_and] at h hne hall hval
          split_ifs at h
          simp only [Except.ok.injEq] at h
          exact ⟨['-'], cs, by simp [hneg], by simp, hne, hall,
            by simp [signedValue, ← h, hval], hr.1, hr.2⟩
        · by_cases hpos : c = '+'
          · simp only [hpos, true_or, if_true, decide_False, not_false_eq_true, true_and,
              false_and, if_false, show ¬ ('+' : Char) = '-' by decide] at h hne hall hval
            split_ifs at h
            simp only [Except.ok.injEq] at h
            exact ⟨['+'], cs, by simp [hpos], by simp, hne, hall,
              by simp [signedValue, ← h, hval], hr.1, hr.2⟩
          · simp only [hpos, hneg, or_self, if_false, decide_False, not_false_eq_true, true_and,
              false_and] at h hne hall hval
            split_ifs at h
            simp only [Except.ok.injEq] at h
            exact ⟨[], c :: cs, by simp, by simp, hne, hall,
              by simp [signedValue, ← h, hval], hr.1, hr.2⟩
  · rintro ⟨sign, digits, hs, hsign, hne, hall, hv, hlo, hhi⟩
    obtain ⟨d, ds, rfl⟩ := List.exists_cons_of_ne_nil hne
    have hd : d.isDigit = true := hall d (by simp)
    have hdplus : d ≠ '+' := by rintro rfl; simp [hplus] at hd
    have hdminus : d ≠ '-' := by rintro rfl; simp [hminus] at hd
    rcases hsign with rfl | rfl | rfl
    · simp only [List.nil_append] at hs
      subst hs
      have hu : ParseUint (d :: ds) = .ok (decimalValue (d :: ds)) := by
        rw [ParseUint_ok]
        refine ⟨by simp, hall, rfl, ?_⟩
        simp only [signedValue, List.nil_eq, reduceCtorEq, if_false] at hv
        rw [hm]; omega
      simp only [ParseInt, hdplus, hdminus, or_self, if_false, hu, decide_False]
      simp only [signedValue, List.nil_eq, reduceCtorEq, if_false] at hv
      rw [if_neg (by simp only [not_false_eq_true, true_and, not_le, ge_iff_le]; omega)]
      simp [hv]
    · simp only [List.singleton_append] at hs
      subst hs
      have hu : ParseUint (d :: ds) = .ok (decimalValue (d :: ds)) := by
        rw [ParseUint_ok]
        refine ⟨by simp, hall, rfl, ?_⟩
        simp only [signedValue, List.cons.injEq, and_true,
          show ¬ ('+' : Char) = '-' by decide, if_false] at hv
        rw [hm]; omega
      simp only [ParseInt, true_or, if_true, hu, show ¬ ('+' : Char) = '-' by decide,
        decide_False]
      simp only [signedValue, List.cons.injEq, and_true,
          show ¬ ('+' : Char) = '-' by decide, if_false] at hv
      rw [if_neg (by simp only [not_false_eq_true, true_and, not_le, ge_iff_le]; omega)]
      simp [hv]
    · simp only [List.singleton_append] at hs
      subst hs
      have hu : ParseUint (d :: ds) = .ok (decimalValue (d :: ds)) := by
        rw [ParseUint_ok]
        refine ⟨by simp, hall, rfl, ?_⟩
        simp only [signedValue, if_true] at hv
        rw [hm]; omega
      simp only [ParseInt, or_true, if_true, hu, decide_True]
      simp only [signedValue, if_true] at hv
      rw [if_neg (by simp), if_neg (by simp only [true_and, not_lt, gt_iff_lt]; omega)]
      simp [hv]

theorem digit_ne_space {c : Char} (h : c.isDigit = true) : c ≠ ' ' := by
  rintro rfl; exact absurd h (by decide)

theorem parseFreq_ok (value : List Char) (q : ℚ) :
    parseFreq value = .ok q ↔ ∃ n, FreqValue value n ∧ q = (n : ℚ) * 1000000 := by
  constructor
  · intro h
    unfold parseFreq at h
    split at h
    · rename_i p0 p1 hsplit
      split at h
      · simp at h
      · rename_i v hv
        simp only [Except.ok.injEq] at h
        rw [Split_pair] at hsplit
        rw [ParseInt_ok] at hv
        obtain ⟨sign, digits, hp0, hsign, hne, hall, hval, hlo, hhi⟩ := hv
        refine ⟨v, ⟨sign, digits, p1, ?_, hsign, hne, hall, hsplit.2.2, hval, hlo, hhi⟩, h.symm⟩
        rw [hsplit.1, hp0]
    · simp at h
  · rintro ⟨n, ⟨sign, digits, unit, htrim, hsign, hne, hall, hunit, hval, hlo, hhi⟩, hq⟩
    have hsp : Split ' ' (TrimSpace value) = [sign ++ digits, unit] := by
      rw [Split_pair]
      refine ⟨htrim, ?_, hunit⟩
      simp only [List.mem_append, not_or]
      constructor
      · rcases hsign with rfl | rfl | rfl <;> simp
      · intro hmem
        exact digit_ne_space (hall _ hmem) rfl
    have hpi : ParseInt (sign ++ digits) = .ok n := by
      rw [ParseInt_ok]
      exact ⟨sign, digits, rfl, hsign, hne, hall, hval, hlo, hhi⟩
    simp only [parseFreq, hsp, hpi, hq]

theorem parseFreq_error (value : List Char) :
    (∃ e, parseFreq value = .error e) ↔ ¬ ∃ n, FreqValue value n := by
  constructor
  · rintro ⟨e, he⟩ ⟨n, hn⟩
    have := (parseFreq_ok value _).mpr ⟨n, hn, rfl⟩
    rw [he] at this
    simp at this
  · intro h
    cases hp : parseFreq value with
    | error e => exact ⟨e, rfl⟩
    | ok q =>
      obtain ⟨n, hn, _⟩ := (parseFreq_ok value q).mp hp
      exact absurd ⟨n, hn⟩ h

theorem SplitN2_no_sep (sep : Char) (s : List Char) (h : sep ∉ s) : SplitN2 sep s = [s] := by
  have : s.dropWhile (fun c => c != sep) = [] := by
    rw [List.dropWhile_eq_nil_iff]
    intro x hx
    simp only [bne_iff_ne, ne_eq]
    rintro rfl
    exact h hx
  simp [SplitN2, this]

theorem dropWhile_ne_sep (sep : Char) (key value : List Char) (h : sep ∉ key) :
    (key ++ sep :: value).dropWhile (fun c => c != sep) = sep :: value := by
  induction key with
  | nil => simp [List.dropWhile]
  | cons a as ih =>
    simp only [List.mem_cons, not_or] at h
    have ha : (a != sep) = true := by simpa [bne_iff_ne] using fun e => h.1 e.symm
    simp only [List.cons_append, List.dropWhile_cons, ha, if_true]
    exact ih h.2

theorem SplitN2_sep (sep : Char) (key value : List Char) (h : sep ∉ key) :
    SplitN2 sep (key ++ sep :: value) = [key, value] := by
  have h1 := dropWhile_ne_sep sep key value h
  have h2 : (key ++ sep :: value).takeWhile (fun c => c != sep) = key := by
    clear h1
    induction key with
    | nil => simp [List.takeWhile]
    | cons a as ih =>
      simp only [List.mem_cons, not_or] at h
      have ha : (a != sep) = true := by simpa [bne_iff_ne] using fun e => h.1 e.symm
      simp only [List.cons_append, List.takeWhile_cons, ha, if_true]
      rw [ih h.2]
  simp only [SplitN2, h1, h2]

theorem SplitN2_cases (sep : Char) (s : List Char) :
    (sep ∉ s ∧ SplitN2 sep s = [s]) ∨
    ∃ key value, s = key ++ sep :: value ∧ sep ∉ key ∧ SplitN2 sep s = [key, value] := by
  by_cases h : sep ∈ s
  · right
    obtain ⟨key, value, hs, hk⟩ := List.eq_append_cons_of_mem h
    exact ⟨key, value, hs, hk, hs ▸ SplitN2_sep sep key value hk⟩
  · left
    exact ⟨h, SplitN2_no_sep sep s h⟩

theorem Field.colon_not_mem_key (fld : Field) : ':' ∉ fld.key.toList := by
  cases fld <;> decide

theorem Carries.splitN2 {fld : Field} {line : String} {value : List Char}
    (h : Carries fld.key line value) : SplitN2 ':' line.toList = [fld.key.toList, value] := by
  rw [h]
  exact SplitN2_sep ':' _ _ fld.colon_not_mem_key

theorem Carries.unique {fld fld1 : Field} {line : String} {value value1 : List Char}
    (h : Carries fld.key line value) (h1 : Carries fld1.key line value1) :
    fld = fld1 ∧ value = value1 := by
  have e := h.splitN2.symm.trans h1.splitN2
  simp only [List.cons.injEq, and_true] at e
  refine ⟨?_, e.2⟩
  have hk := e.1
  cases fld <;> cases fld1 <;> first | rfl | (exact absurd hk (by decide))

theorem scanLine_carries {fld : Field} {line : String} {value : List Char} (r : gpuFreq)
    (h : Carries fld.key line value) :
    scanLine r line =
      match parseFreq value with
      | .error e => .error e
      | .ok f => .ok (fld.set r f) := by
  unfold scanLine
  rw [h.splitN2]
  cases fld
  · simp only [Field.key, if_true, Field.set]
  · simp only [Field.key, show ¬ "Max freq".toList = "Actual freq".toList by decide, if_false,
      if_true, Field.set]
  · simp only [Field.key, show ¬ "Idle freq".toList = "Actual freq".toList by decide,
      show ¬ "Idle freq".toList = "Max freq".toList by decide, if_false, if_true, Field.set]

theorem scanLine_other {line : String} (r : gpuFreq)
    (h : ∀ (fld : Field) (value : List Char), ¬ Carries fld.key line value) :
    scanLine r line = .ok r := by
  unfold scanLine
  rcases SplitN2_cases ':' line.toList with ⟨_, h1⟩ | ⟨key, value, hs, _, h1⟩
  · rw [h1]
  · rw [h1]
    simp only
    have ha : key ≠ "Actual freq".toList := by
      rintro rfl; exact h .actual value hs
    have hm : key ≠ "Max freq".toList := by
      rintro rfl; exact h .max value hs
    have hi : key ≠ "Idle freq".toList := by
      rintro rfl; exact h .idle value hs
    rw [if_neg ha, if_neg hm, if_neg hi]

theorem Field.get_set (fld fld1 : Field) (r : gpuFreq) (f : ℚ) :
    fld.get (fld1.set r f) = if fld = fld1 then f else fld.get r := by
  cases fld <;> cases fld1 <;> simp [Field.get, Field.set]

theorem scanLines_error_iff (r : gpuFreq) (lines : List String) :
    (∃ e, scanLines r lines = .error e) ↔
      ∃ line ∈ lines, ∃ (fld : Field) (value : List Char),
        Carries fld.key line value ∧ ∃ e, parseFreq value = .error e := by
  induction lines generalizing r with
  | nil => simp [scanLines]
  | cons line rest ih =>
    simp only [scanLines, List.mem_cons, exists_eq_or_imp]
    by_cases hc : ∃ (fld : Field) (value : List Char), Carries fld.key line value
    · obtain ⟨fld, value, hcar⟩ := hc
      rw [scanLine_carries r hcar]
      cases hp : parseFreq value with
      | error e =>
        simp only [reduceCtorEq, Except.error.injEq, exists_eq', true_iff]
        exact Or.inl ⟨fld, value, hcar, e, hp⟩
      | ok f =>
        simp only
        rw [ih]
        constructor
        · intro h; exact Or.inr h
        · rintro (⟨fld1, value1, hcar1, e, he⟩ | h)
          · obtain ⟨_, rfl⟩ := hcar.unique hcar1
            rw [hp] at he
            simp at he
          · exact h
    · rw [scanLine_other r (by intro fld value h; exact hc ⟨fld, value, h⟩)]
      simp only
      rw [ih]
      constructor
      · intro h; exact Or.inr h
      · rintro (⟨fld1, value1, hcar1, _⟩ | h)
        · exact absurd ⟨fld1, value1, hcar1⟩ hc
        · exact h

theorem scanLines_field (fld : Field) {r r1 : gpuFreq} {lines : List String}
    (h : scanLines r lines = .ok r1) :
    ((∀ line ∈ lines, ∀ value, ¬ Carries fld.key line value) ∧ fld.get r1 = fld.get r) ∨
    ∃ pre line post value n, lines = pre ++ line :: post ∧ Carries fld.key line value ∧
      (∀ l ∈ post, ∀ v, ¬ Carries fld.key l v) ∧ FreqValue value n ∧
      fld.get r1 = (n : ℚ) * 1000000 := by
  induction lines generalizing r with
  | nil =>
    simp only [scanLines, Except.ok.injEq] at h
    subst h
    left; simp
  | cons line rest ih =>
    simp only [scanLines] at h
    split at h
    · simp at h
    · rename_i r2 h2
      rcases ih h with ⟨hno, hget⟩ | ⟨pre, l, post, value, n, hl, hcar, hpost, hfv, hget⟩
      · by_cases hc : ∃ (fld1 : Field) (value : List Char), Carries fld1.key line value
        · obtain ⟨fld1, value, hcar⟩ := hc
          rw [scanLine_carries r hcar] at h2
          split at h2
          · simp at h2
          · rename_i f hf
            simp only [Except.ok.injEq] at h2
            subst h2
            rw [Field.get_set] at hget
            by_cases hff : fld = fld1
            · subst hff
              rw [if_pos rfl] at hget
              obtain ⟨n, hn, hq⟩ := (parseFreq_ok value f).mp hf
              right
              exact ⟨[], line, rest, value, n, rfl, hcar, hno, hn, hget.trans hq⟩
            · rw [if_neg hff] at hget
              left
              refine ⟨?_, hget⟩
              intro l hl v hv
              rcases List.mem_cons.mp hl with rfl | hl
              · exact hff (hv.unique hcar).1
              · exact hno l hl v hv
        · rw [scanLine_other r (by intro fld value h; exact hc ⟨fld, value, h⟩)] at h2
          simp only [Except.ok.injEq] at h2
          subst h2
          left
          refine ⟨?_, hget⟩
          intro l hl v hv
          rcases List.mem_cons.mp hl with rfl | hl
          · exact hc ⟨fld, v, hv⟩
          · exact hno l hl v hv
      · right
        exact ⟨line :: pre, l, post, value, n, by rw [hl]; rfl, hcar, hpost, hfv, hget⟩

theorem scanLines_insert (x : String) (hx : ∀ r, scanLine r x = .ok r) (r : gpuFreq)
    (l1 l2 : List String) : scanLines r (l1 ++ x :: l2) = scanLines r (l1 ++ l2) := by
  induction l1 generalizing r with
  | nil => simp [scanLines, hx]
  | cons a as ih =>
    simp only [List.cons_append, scanLines]
    cases scanLine r a with
    | error e => rfl
    | ok r2 => exact ih r2

theorem knownKeys_iff (P : String → Prop) :
    (∃ key ∈ knownKeys, P key) ↔ ∃ fld : Field, P fld.key := by
  constructor
  · rintro ⟨key, hk, hp⟩
    simp only [knownKeys, List.mem_cons, List.mem_singleton, List.not_mem_nil, or_false] at hk
    rcases hk with rfl | rfl | rfl
    · exact ⟨.actual, hp⟩
    · exact ⟨.max, hp⟩
    · exact ⟨.idle, hp⟩
  · rintro ⟨fld, hp⟩
    refine ⟨fld.key, ?_, hp⟩
    cases fld <;> simp [knownKeys, Field.key]

/-! ## The claims on `pkg/collector/sysfs` -/

/-- C6, as stated, fails: the one-line file `Actual freq: 300  MHz` (two
spaces) has a value of two white-space separated tokens whose first is a
decimal integer, and yet the frequency parse fails on it, because `parseFreq`
splits at every single space character. -/
theorem readFrequencySysFS_double_space_counterexample :
    ¬ SpecFailureRule ["Actual freq: 300  MHz"] := by
  intro h
  have hfail : ∃ e, readFrequencySysFS (some ["Actual freq: 300  MHz"]) = .error e :=
    ⟨.unexpectedInput " 300  MHz", by decide⟩
  obtain ⟨line, hl, key, hk, value, hcar, hform⟩ := h.mp hfail
  simp only [List.mem_singleton] at hl
  subst hl
  have hval : value = " 300  MHz".toList := by
    simp only [knownKeys, List.mem_cons, List.mem_singleton, List.not_mem_nil, or_false] at hk
    rcases hk with rfl | rfl | rfl
    · have h2 : "Actual freq: 300  MHz".toList
          = "Actual freq".toList ++ ':' :: " 300  MHz".toList := by decide
      unfold Carries at hcar
      rw [h2] at hcar
      have := List.append_cancel_left hcar
      simp only [List.cons.injEq, true_and] at this
      exact this.symm
    · unfold Carries at hcar
      have h3 := congrArg List.head? hcar
      have h4 : ("Max freq".toList ++ ':' :: value).head? = some 'M' := rfl
      rw [h4] at h3
      exact absurd h3 (by decide)
    · unfold Carries at hcar
      have h3 := congrArg List.head? hcar
      have h4 : ("Idle freq".toList ++ ':' :: value).head? = some 'I' := rfl
      rw [h4] at h3
      exact absurd h3 (by decide)
  subst hval
  exact absurd hform (by decide)

/-- C6 (amended): for every list of lines, the frequency parse fails exactly
when some line that carries one of the three known keys has a value that
`FreqValue` does not describe (trimmed, it must be an optionally signed run of
decimal digits within the signed 64-bit range, one space character, and a unit
text without space character); when it succeeds, actual, max and idle are each
a million times the integer of the last line carrying the key, zero when no
line carries it; inserting (or removing) a line that carries no known key, such
as a line without colon, never changes the result; `Actual freq: 300 MHz`
yields actual = 300e6, with or without a line `Garbage line without colon`. -/
theorem readFrequencySysFS_spec (lines : List String) :
    ((∃ e, readFrequencySysFS (some lines) = .error e) ↔
      ∃ line ∈ lines, ∃ key ∈ knownKeys, ∃ value,
        Carries key line value ∧ ¬ ∃ n, FreqValue value n) ∧
    (∀ r, readFrequencySysFS (some lines) = .ok r →
      LastValue "Actual freq" lines r.ActualFrequency ∧
      LastValue "Max freq" lines r.MaxFrequency ∧
      LastValue "Idle freq" lines r.IdleFrequency) ∧
    (∀ (x : String) (pre post : List String), lines = pre ++ post →
      (∀ key ∈ knownKeys, ∀ value, ¬ Carries key x value) →
      readFrequencySysFS (some (pre ++ x :: post)) = readFrequencySysFS (some lines)) ∧
    readFrequencySysFS (some ["Actual freq: 300 MHz"]) = .ok ⟨300000000, 0, 0⟩ ∧
    readFrequencySysFS (some ["Garbage line without colon", "Actual freq: 300 MHz"])
      = .ok ⟨300000000, 0, 0⟩ := by
  refine ⟨?_, ?_, ?_, by decide!, by decide!⟩
  · simp only [readFrequencySysFS]
    rw [scanLines_error_iff]
    constructor
    · rintro ⟨line, hl, fld, value, hcar, he⟩
      exact ⟨line, hl, (knownKeys_iff _).mpr ⟨fld, value, hcar, (parseFreq_error value).mp he⟩⟩
    · rintro ⟨line, hl, hk⟩
      obtain ⟨fld, value, hcar, hn⟩ := (knownKeys_iff _).mp hk
      exact ⟨line, hl, fld, value, hcar, (parseFreq_error value).mpr hn⟩
  · intro r hr
    simp only [readFrequencySysFS] at hr
    have key : ∀ fld : Field, LastValue fld.key lines (fld.get r) := by
      intro fld
      rcases scanLines_field fld hr with ⟨hno, hget⟩ | h
      · left
        refine ⟨hno, ?_⟩
        rw [hget]
        cases fld <;> rfl
      · right
        exact h
    exact ⟨key .actual, key .max, key .idle⟩
  · intro x pre post hlines hx
    subst hlines
    simp only [readFrequencySysFS]
    apply scanLines_insert
    intro r
    apply scanLine_other
    intro fld value hcar
    exact hx fld.key (by cases fld <;> simp [knownKeys, Field.key]) value hcar

/-- C7, as stated, fails: with idle = 300e6, max = 1000e6 (whole MHz) and the
step -50e6, `max − idle ≥ step` holds, and `Buckets(step)` panics in
`LinearBuckets` (count −14) instead of returning boundaries. With the step
1e-11 the quotient 7e19 does not fit `int`, and what `Buckets` does is left to
the implementation of the conversion. -/
theorem Buckets_negative_step_counterexample :
    (1000000000 : ℚ) - 300000000 ≥ -50000000 ∧
    gpuFreq.Buckets ⟨0, 300000000, 1000000000⟩ (-50000000) = .panics ∧
    (1000000000 : ℚ) - 300000000 ≥ 1 / 100000000000 ∧
    gpuFreq.Buckets ⟨0, 300000000, 1000000000⟩ (1 / 100000000000) = .unspecified := by
  refine ⟨by norm_num, by decide!, by norm_num, by decide!⟩

/-- C7 (amended): for every frequency sample whose idle and max are whole-MHz
values in Hz and every step with `0 < step ≤ max − idle` whose quotient
`(max − idle) / step` is below `2^63`, `Buckets(step)` returns exactly
`⌊(max − idle) / step⌋` boundaries, the i-th (from 0) being `idle + i × step`;
for idle = 300e6, max = 1000e6, step = 50e6 these are the 14 boundaries 300e6,
350e6, ..., 950e6. -/
theorem Buckets_spec (f : gpuFreq) (step : ℚ) (a b : Int)
    (hidle : f.IdleFrequency = (a : ℚ) * 1000000) (hmax : f.MaxFrequency = (b : ℚ) * 1000000)
    (hstep : 0 < step) (hge : step ≤ f.MaxFrequency - f.IdleFrequency)
    (hfit : (f.MaxFrequency - f.IdleFrequency) / step < 2 ^ 63) :
    (∃ bs, f.Buckets step = .value bs ∧
      (bs.length : Int) = ⌊(f.MaxFrequency - f.IdleFrequency) / step⌋ ∧
      ∀ i, i < bs.length → bs[i]? = some (f.IdleFrequency + i * step)) ∧
    gpuFreq.Buckets ⟨0, 300000000, 1000000000⟩ 50000000 =
      .value [300000000, 350000000, 400000000, 450000000, 500000000, 550000000, 600000000,
        650000000, 700000000, 750000000, 800000000, 850000000, 900000000, 950000000] := by
  have _ := hidle
  have _ := hmax
  exact ⟨Buckets_general f step hstep hge hfit, by decide!⟩

/-- Witness of C7 (amended) at idle = 300e6, max = 1000e6, step = 50e6. -/
theorem Buckets_spec_witness :
    ∃ bs, gpuFreq.Buckets ⟨0, 300000000, 1000000000⟩ 50000000 = .value bs ∧
      (bs.length : Int) = ⌊((1000000000 : ℚ) - 300000000) / 50000000⌋ ∧
      ∀ i, i < bs.length → bs[i]? = some ((300000000 : ℚ) + i * 50000000) :=
  (Buckets_spec ⟨0, 300000000, 1000000000⟩ 50000000 300 1000 (by norm_num) (by norm_num)
    (by norm_num) (by norm_num) (by norm_num)).1

/-- C8: whenever the first read of the frequency file succeeds with
max ≤ idle, `sysfs.New` panics (in `prometheus.LinearBuckets`, whose count is
then below 1): it returns neither an error nor a collector. -/
theorem New_panics_when_max_le_idle (lines : List String) (f : gpuFreq)
    (hread : readFrequencySysFS (some lines) = .ok f)
    (hle : f.MaxFrequency ≤ f.IdleFrequency) : New (some lines) = .panics :=
  New_panics_of_le hread hle

/-- Witness of C8: a readable file with the line `Actual freq: 300 MHz` only
leaves max = idle = 0, and `sysfs.New` panics. -/
theorem New_panics_when_max_le_idle_witness :
    New (some ["Actual freq: 300 MHz"]) = .panics :=
  New_panics_when_max_le_idle ["Actual freq: 300 MHz"] ⟨300000000, 0, 0⟩ (by decide!)
    (le_refl _)

/-! ## Lemmas on `record` -/

theorem GPUTop.ext_iff' (a b : GPUTop) :
    a = b ↔ a.powerConsumption = b.powerConsumption ∧ a.engineUsage = b.engineUsage := by
  cases a; cases b; simp

theorem engineAdd_nonneg (g : GPUTop) (engine mode : String) (v : ℚ) (hv : 0 ≤ v) :
    engineAdd g engine mode v =
      some { g with engineUsage := fun e m =>
        if e = engine ∧ m = mode then g.engineUsage engine mode + v else g.engineUsage e m } := by
  simp [engineAdd, CounterAdd, not_lt.mpr hv]

theorem engineIncrement_nil (table : Char → Char) (seconds : ℚ) (l m : String) :
    engineIncrement table seconds [] l m = 0 := by
  simp [engineIncrement]

theorem engineIncrement_cons (table : Char → Char) (seconds : ℚ) (name : String) (e : Engine)
    (rest : List (String × Option Engine)) (l m : String) :
    engineIncrement table seconds ((name, some e) :: rest) l m =
      (if ToLower table name = l then seconds * modeShare m e * (1 / 100) else 0) +
        engineIncrement table seconds rest l m := by
  simp [engineIncrement]

theorem engineIncrement_append (table : Char → Char) (seconds : ℚ)
    (xs ys : List (String × Option Engine)) (l m : String) :
    engineIncrement table seconds (xs ++ ys) l m =
      engineIncrement table seconds xs l m + engineIncrement table seconds ys l m := by
  simp [engineIncrement]

theorem addEngines_nil (table : Char → Char) (seconds : ℚ) (g : GPUTop) :
    addEngines table seconds [] g = g := by
  rw [GPUTop.ext_iff']
  refine ⟨rfl, ?_⟩
  funext l m
  simp [addEngines, engineIncrement_nil]

theorem addEngines_cons (table : Char → Char) (seconds : ℚ) (p : String × Option Engine)
    (rest : List (String × Option Engine)) (g : GPUTop) :
    addEngines table seconds (p :: rest) g
      = addEngines table seconds rest (addEngines table seconds [p] g) := by
  rw [GPUTop.ext_iff']
  refine ⟨rfl, ?_⟩
  funext l m
  have := engineIncrement_append table seconds [p] rest l m
  simp only [List.singleton_append] at this
  simp only [addEngines, this]
  ring

theorem recordEngines_step (table : Char → Char) (seconds : ℚ) (name : String) (e : Engine)
    (rest : List (String × Option Engine)) (g : GPUTop) (hu : e.Unit = "%")
    (hb : 0 ≤ seconds * e.Busy * (1 / 100)) (hs : 0 ≤ seconds * e.Sema * (1 / 100))
    (hw : 0 ≤ seconds * e.Wait * (1 / 100)) :
    recordEngines table seconds ((name, some e) :: rest) g
      = recordEngines table seconds rest (addEngines table seconds [(name, some e)] g) := by
  rw [recordEngines, if_neg (by simp [hu])]
  rw [engineAdd_nonneg _ _ _ _ hb]
  simp only
  rw [engineAdd_nonneg _ _ _ _ hs]
  simp only
  rw [engineAdd_nonneg _ _ _ _ hw]
  simp only
  congr 1
  rw [GPUTop.ext_iff']
  refine ⟨rfl, ?_⟩
  funext l m
  simp only [addEngines, engineIncrement_cons, engineIncrement_nil, add_zero, modeShare]
  have h1 : ("busy" : String) ≠ "sema" := by decide
  have h2 : ("busy" : String) ≠ "wait" := by decide
  have h3 : ("sema" : String) ≠ "wait" := by decide
  by_cases hl : l = ToLower table name
  · subst hl
    by_cases hmb : m = "busy"
    · subst hmb; simp [h1, h2]
    · by_cases hms : m = "sema"
      · subst hms; simp [h1.symm, h3]
      · by_cases hmw : m = "wait"
        · subst hmw; simp [h2.symm, h3.symm]
        · simp [hmb, hms, hmw]
  · have hl2 : ¬ ToLower table name = l := fun h => hl h.symm
    simp [hl, hl2]

theorem recordEngines_append (table : Char → Char) (seconds : ℚ)
    (pre rest : List (String × Option Engine)) (g : GPUTop)
    (hp : EnginesPercent pre) (hn : EnginesNonneg seconds pre) :
    recordEngines table seconds (pre ++ rest) g
      = recordEngines table seconds rest (addEngines table seconds pre g) := by
  induction pre generalizing g with
  | nil => simp [addEngines_nil]
  | cons p pre ih =>
    obtain ⟨name, oe⟩ := p
    obtain ⟨e, he, hu⟩ := hp (name, oe) (by simp)
    simp only at he
    subst he
    obtain ⟨hb, hs, hw⟩ := hn (name, some e) (by simp) e rfl
    rw [List.cons_append, recordEngines_step table seconds name e _ g hu hb hs hw]
    rw [ih _ (fun q hq => hp q (by simp [hq])) (fun q hq => hn q (by simp [hq]))]
    rw [← addEngines_cons]

theorem recordEngines_all (table : Char → Char) (seconds : ℚ)
    (engines : List (String × Option Engine)) (g : GPUTop)
    (hp : EnginesPercent engines) (hn : EnginesNonneg seconds engines) :
    recordEngines table seconds engines g = ⟨.nil, addEngines table seconds engines g⟩ := by
  have := recordEngines_append table seconds engines [] g hp hn
  simpa [recordEngines] using this

theorem Hours_eq (d : Int) : Hours d = (d : ℚ) / 3600000000000 := by
  unfold Hours
  have h := Int.tdiv_add_tmod d 3600000000000
  have h2 : (d : ℚ) = ((3600000000000 * d.tdiv 3600000000000 + d.tmod 3600000000000 : Int) : ℚ) := by
    rw [h]
  rw [h2]
  push_cast
  ring

theorem Seconds_eq (d : Int) : Seconds d = (d : ℚ) / 1000000000 := by
  unfold Seconds
  have h := Int.tdiv_add_tmod d 1000000000
  have h2 : (d : ℚ) = ((1000000000 * d.tdiv 1000000000 + d.tmod 1000000000 : Int) : ℚ) := by
    rw [h]
  rw [h2]
  push_cast
  ring

theorem record_valid (table : Char → Char) (g : GPUTop) (d : GPUTopData) (duration : Int)
    (hparse : ParseDuration (formatFloat d.Period.Duration ++ d.Period.Unit.toList) = .ok duration)
    (hW : d.Power.Unit = "W") (hpow : 0 ≤ Hours duration * d.Power.Value)
    (pre rest : List (String × Option Engine)) (hsplit : d.Engines = pre ++ rest)
    (hp : EnginesPercent pre) (hn : EnginesNonneg (Seconds duration) pre) :
    record table g d = recordEngines table (Seconds duration) rest
      (addEngines table (Seconds duration) pre
        { g with powerConsumption := g.powerConsumption + Hours duration * d.Power.Value }) := by
  unfold record
  rw [hparse]
  simp only
  rw [if_pos hW]
  simp only [CounterAdd, not_lt.mpr hpow, if_false]
  rw [hsplit, recordEngines_append _ _ _ _ _ hp hn]

theorem ToLower_Render (table : Char → Char) : ToLower table "Render" = "render" := by
  rfl

theorem parse_one_second :
    ParseDuration (formatFloat 1 ++ "s".toList) = .ok 1000000000 := by decide!

theorem parse_minus_one_second :
    ParseDuration (formatFloat (-1) ++ "s".toList) = .ok (-1000000000) := by decide!

theorem enginesPercent_render : EnginesPercent [("Render", some (⟨50, 0, 10, "%"⟩ : Engine))] := by
  intro p hp
  simp only [List.mem_singleton] at hp
  subst hp
  exact ⟨_, rfl, rfl⟩

theorem enginesNonneg_render :
    EnginesNonneg (Seconds 1000000000) [("Render", some (⟨50, 0, 10, "%"⟩ : Engine))] := by
  intro p hp e he
  simp only [List.mem_singleton] at hp
  subst hp
  simp only [Option.some.injEq] at he
  subst he
  rw [Seconds_eq]
  norm_num

theorem record_render (table : Char → Char) (g : GPUTop) :
    record table g renderSnapshot =
      ⟨.nil, { powerConsumption := g.powerConsumption + 1 / 1800
               engineUsage := fun l m => g.engineUsage l m +
                 if l = "render" then modeShare m ⟨50, 0, 10, "%"⟩ * (1 / 100) else 0 }⟩ := by
  have h := record_valid table g renderSnapshot 1000000000 parse_one_second rfl
    (by rw [Hours_eq]; simp [renderSnapshot, snapshot])
    [("Render", some ⟨50, 0, 10, "%"⟩)] [] rfl enginesPercent_render enginesNonneg_render
  rw [h]
  simp only [recordEngines]
  congr 1
  rw [GPUTop.ext_iff']
  constructor
  · simp only [addEngines, Hours_eq, renderSnapshot, snapshot]
    norm_num
  · funext l m
    simp only [addEngines, engineIncrement_cons, engineIncrement_nil, ToLower_Render,
      Seconds_eq, add_zero]
    by_cases hl : l = "render"
    · subst hl; simp
    · have : ¬ "render" = l := fun h => hl h.symm
      simp [hl, this]

/-! ## The claims on `record` -/

/-- C1, as stated, fails: the snapshot with period 1 s, power 2 W and the
engines Render (busy 50, unit `%`) and Video (unit `MHz`), visited in this
order, has an engine whose unit is not `%`; `record` returns the unit error of
Video, and yet the counter `{engine="render", mode="busy"}` of the snapshot's
engine Render has moved from 0 to 1/2. -/
theorem record_partial_write_counterexample :
    ParseDuration (formatFloat twoEngineSnapshot.Period.Duration ++
      twoEngineSnapshot.Period.Unit.toList) = .ok 1000000000 ∧
    twoEngineSnapshot.Power.Unit = "W" ∧
    (∃ p ∈ twoEngineSnapshot.Engines, ∃ e, p.2 = some e ∧ e.Unit ≠ "%") ∧
    ∀ table : Char → Char,
      (record table zeroMetrics twoEngineSnapshot).returned
        = .error (.engineUnit "Video" "MHz") ∧
      (record table zeroMetrics twoEngineSnapshot).metrics.engineUsage
        (ToLower table "Render") "busy" = 1 / 2 ∧
      zeroMetrics.engineUsage (ToLower table "Render") "busy" = 0 := by
  refine ⟨parse_one_second, rfl, ⟨("Video", some ⟨0, 0, 0, "MHz"⟩), by simp [twoEngineSnapshot,
    snapshot], ⟨0, 0, 0, "MHz"⟩, rfl, by decide⟩, ?_⟩
  intro table
  have h := record_valid table zeroMetrics twoEngineSnapshot
    1000000000 parse_one_second rfl (by rw [Hours_eq]; simp [twoEngineSnapshot, snapshot])
    [("Render", some ⟨50, 0, 10, "%"⟩)] [("Video", some ⟨0, 0, 0, "MHz"⟩)] rfl
    enginesPercent_render enginesNonneg_render
  rw [h]
  refine ⟨?_, ?_, rfl⟩
  · simp [recordEngines]
  · simp only [recordEngines]
    rw [if_pos (by decide)]
    simp only [addEngines, engineIncrement_cons, engineIncrement_nil, zeroMetrics, modeShare,
      Seconds_eq]
    norm_num

/-- C1 (amended): for every snapshot whose period parses, whose power unit is
`W` with a non-negative power increment, and for every order in which its
engines are visited, `pre` being the engines visited before the first engine
`name` whose unit is not `%` (they are non-null, of unit `%`, with non-negative
increments): `record` returns the unexpected-unit error of `name`; at that
moment the power counter has been increased, each engine of `pre` has received
its three increments, and every counter whose engine label is not the
lower-cased name of an engine of `pre` is unchanged. When the engine of wrong
unit is visited first, no engine counter has changed. -/
theorem record_engine_unit_error (table : Char → Char) (g : GPUTop) (d : GPUTopData)
    (duration : Int) (pre post : List (String × Option Engine)) (name : String) (bad : Engine)
    (hparse : ParseDuration (formatFloat d.Period.Duration ++ d.Period.Unit.toList) = .ok duration)
    (hW : d.Power.Unit = "W") (hpow : 0 ≤ Hours duration * d.Power.Value)
    (hsplit : d.Engines = pre ++ (name, some bad) :: post) (hbad : bad.Unit ≠ "%")
    (hp : EnginesPercent pre) (hn : EnginesNonneg (Seconds duration) pre) :
    (record table g d).returned = .error (.engineUnit name bad.Unit) ∧
    (record table g d).metrics.powerConsumption
      = g.powerConsumption + Hours duration * d.Power.Value ∧
    (∀ l m, (record table g d).metrics.engineUsage l m
      = g.engineUsage l m + engineIncrement table (Seconds duration) pre l m) ∧
    (∀ l m, (∀ p ∈ pre, ToLower table p.1 ≠ l) →
      (record table g d).metrics.engineUsage l m = g.engineUsage l m) ∧
    (pre = [] → (record table g d).metrics.engineUsage = g.engineUsage) := by
  have h := record_valid table g d duration hparse hW hpow pre ((name, some bad) :: post) hsplit
    hp hn
  have hr : record table g d = ⟨.error (.engineUnit name bad.Unit),
      addEngines table (Seconds duration) pre
        { g with powerConsumption := g.powerConsumption + Hours duration * d.Power.Value }⟩ := by
    rw [h, recordEngines, if_pos hbad]
  rw [hr]
  refine ⟨rfl, rfl, fun l m => rfl, ?_, ?_⟩
  · intro l m hl
    simp only [addEngines]
    have : engineIncrement table (Seconds duration) pre l m = 0 := by
      unfold engineIncrement
      apply List.sum_eq_zero
      intro x hx
      simp only [List.mem_map] at hx
      obtain ⟨p, hpm, rfl⟩ := hx
      cases hp2 : p.2 with
      | none => rfl
      | some e => simp [hl p hpm]
    rw [this, add_zero]
  · intro hpre
    subst hpre
    funext l m
    simp [addEngines, engineIncrement_nil]

/-- Witness of C1 (amended): the snapshot with engines Render (unit `%`) then
Video (unit `MHz`), period 1 s and power 2 W, from zero metrics. -/
theorem record_engine_unit_error_witness :
    (record id zeroMetrics twoEngineSnapshot).returned = .error (.engineUnit "Video" "MHz") ∧
    (record id zeroMetrics twoEngineSnapshot).metrics.powerConsumption
      = zeroMetrics.powerConsumption + Hours 1000000000 * twoEngineSnapshot.Power.Value ∧
    (∀ l m, (record id zeroMetrics twoEngineSnapshot).metrics.engineUsage l m
      = zeroMetrics.engineUsage l m + engineIncrement id (Seconds 1000000000)
          [("Render", some ⟨50, 0, 10, "%"⟩)] l m) ∧
    (∀ l m, (∀ p ∈ [("Render", some (⟨50, 0, 10, "%"⟩ : Engine))], ToLower id p.1 ≠ l) →
      (record id zeroMetrics twoEngineSnapshot).metrics.engineUsage l m
        = zeroMetrics.engineUsage l m) ∧
    (([("Render", some (⟨50, 0, 10, "%"⟩ : Engine))] : List (String × Option Engine)) = [] →
      (record id zeroMetrics twoEngineSnapshot).metrics.engineUsage = zeroMetrics.engineUsage) :=
  record_engine_unit_error id zeroMetrics twoEngineSnapshot 1000000000
    [("Render", some ⟨50, 0, 10, "%"⟩)] [] "Video" ⟨0, 0, 0, "MHz"⟩ parse_one_second rfl
    (by rw [Hours_eq]; simp [twoEngineSnapshot, snapshot]) rfl (by decide)
    enginesPercent_render enginesNonneg_render

/-- C2, as stated, fails: the snapshot with period −1 s, power 2 W and no
engine is valid for recording (its period parses to −1 s), and `record` panics
in `Counter.Add`, called with the negative amount 2 W × −1/3600 h; it does not
return, and the power counter is not increased. -/
theorem record_negative_period_counterexample :
    ValidForRecording negativePeriodSnapshot (-1000000000) ∧
    ∀ table : Char → Char,
      (record table zeroMetrics negativePeriodSnapshot).returned = .panics ∧
      (record table zeroMetrics negativePeriodSnapshot).metrics.powerConsumption
        ≠ zeroMetrics.powerConsumption
          + negativePeriodSnapshot.Power.Value * Hours (-1000000000) := by
  refine ⟨⟨parse_minus_one_second, rfl, by intro p hp; simp [negativePeriodSnapshot, snapshot] at hp⟩,
    ?_⟩
  intro table
  have hneg : Hours (-1000000000) * (2 : ℚ) < 0 := by rw [Hours_eq]; norm_num
  have hr : record table zeroMetrics negativePeriodSnapshot = ⟨.panics, zeroMetrics⟩ := by
    unfold record
    have hp : ParseDuration (formatFloat negativePeriodSnapshot.Period.Duration ++
        negativePeriodSnapshot.Period.Unit.toList) = .ok (-1000000000) := parse_minus_one_second
    rw [hp]
    simp only
    rw [if_pos (show negativePeriodSnapshot.Power.Unit = "W" from rfl)]
    have hv : negativePeriodSnapshot.Power.Value = 2 := rfl
    simp only [CounterAdd, hv, hneg, if_true]
  rw [hr]
  refine ⟨rfl, ?_⟩
  simp only [zeroMetrics, negativePeriodSnapshot, snapshot, Hours_eq]
  norm_num

/-- C2 (amended): for every snapshot that is valid for recording and that
would decrease no counter (the power increment `power.value × hours` and the
three increments of every engine are non-negative), `record` returns without
error and has increased `gpu_power_consumption_total` by exactly
`power.value × (the parsed duration in hours)`. -/
theorem record_power_increment (table : Char → Char) (g : GPUTop) (d : GPUTopData)
    (duration : Int) (hvalid : ValidForRecording d duration)
    (hpow : 0 ≤ Hours duration * d.Power.Value)
    (hn : EnginesNonneg (Seconds duration) d.Engines) :
    (record table g d).returned = .nil ∧
    (record table g d).metrics.powerConsumption
      = g.powerConsumption + d.Power.Value * Hours duration ∧
    Hours duration = (duration : ℚ) / 3600000000000 := by
  obtain ⟨hparse, hW, hp⟩ := hvalid
  have h := record_valid table g d duration hparse hW hpow d.Engines [] (by simp) hp hn
  rw [h]
  refine ⟨rfl, ?_, Hours_eq duration⟩
  simp only [recordEngines, addEngines]
  ring

/-- Witness of C2 (amended): period 1 s, power 2 W, engine Render. -/
theorem record_power_increment_witness :
    (record id zeroMetrics renderSnapshot).returned = .nil ∧
    (record id zeroMetrics renderSnapshot).metrics.powerConsumption
      = zeroMetrics.powerConsumption + renderSnapshot.Power.Value * Hours 1000000000 ∧
    Hours 1000000000 = ((1000000000 : Int) : ℚ) / 3600000000000 :=
  record_power_increment id zeroMetrics renderSnapshot 1000000000
    ⟨parse_one_second, rfl, enginesPercent_render⟩
    (by rw [Hours_eq]; simp [renderSnapshot, snapshot]) enginesNonneg_render

/-- C4: for every snapshot whose period parses to a duration and whose
`power.unit` is not `W`, `record` returns the unexpected-unit error for power
consumption, and the metrics (the power counter and every engine counter) are
what they were before the call. -/
theorem record_power_unit_error (table : Char → Char) (g : GPUTop) (d : GPUTopData)
    (duration : Int)
    (hparse : ParseDuration (formatFloat d.Period.Duration ++ d.Period.Unit.toList) = .ok duration)
    (hW : d.Power.Unit ≠ "W") :
    record table g d = ⟨.error (.powerUnit d.Power.Unit), g⟩ := by
  unfold record
  rw [hparse]
  simp only
  rw [if_neg hW]

/-- Witness of C4: period 1 s and power 2 in the unit `kW`. -/
theorem record_power_unit_error_witness :
    record id zeroMetrics kilowattSnapshot = ⟨.error (.powerUnit "kW"), zeroMetrics⟩ :=
  record_power_unit_error id zeroMetrics kilowattSnapshot 1000000000 parse_one_second
    (by decide)

/-- C5, as stated, fails: the snapshot with period −1 s, power 0 W and the
engine Render (busy 50, unit `%`) is valid for recording, and `record` panics
in `Counter.Add`, called with the negative amount −1 s × 50 × 0.01 for the
counter `{engine="render", mode="busy"}`, which keeps its value instead of
changing by that sum. -/
theorem record_negative_engine_counterexample :
    ValidForRecording negativePeriodEngineSnapshot (-1000000000) ∧
    ∀ table : Char → Char,
      (record table zeroMetrics negativePeriodEngineSnapshot).returned = .panics ∧
      (record table zeroMetrics negativePeriodEngineSnapshot).metrics.engineUsage "render" "busy"
        ≠ zeroMetrics.engineUsage "render" "busy"
          + engineIncrement table (Seconds (-1000000000))
              negativePeriodEngineSnapshot.Engines "render" "busy" := by
  refine ⟨⟨parse_minus_one_second, rfl, enginesPercent_render⟩, ?_⟩
  intro table
  have hpow : ¬ Hours (-1000000000) * (0 : ℚ) < 0 := by norm_num
  have hneg : Seconds (-1000000000) * (50 : ℚ) * (1 / 100) < 0 := by rw [Seconds_eq]; norm_num
  have hr : record table zeroMetrics negativePeriodEngineSnapshot = ⟨.panics, zeroMetrics⟩ := by
    unfold record
    have hp : ParseDuration (formatFloat negativePeriodEngineSnapshot.Period.Duration ++
        negativePeriodEngineSnapshot.Period.Unit.toList) = .ok (-1000000000) :=
      parse_minus_one_second
    rw [hp]
    simp only
    rw [if_pos (show negativePeriodEngineSnapshot.Power.Unit = "W" from rfl)]
    have hv : negativePeriodEngineSnapshot.Power.Value = 0 := rfl
    have he : negativePeriodEngineSnapshot.Engines = [("Render", some ⟨50, 0, 10, "%"⟩)] := rfl
    simp only [CounterAdd, hv, hpow, if_false, he, recordEngines, engineAdd, hneg, if_true,
      ne_eq, not_true_eq_false, mul_zero, add_zero]
    rfl
  rw [hr]
  refine ⟨rfl, ?_⟩
  have he : negativePeriodEngineSnapshot.Engines = [("Render", some ⟨50, 0, 10, "%"⟩)] := rfl
  simp only [he, engineIncrement_cons, engineIncrement_nil, ToLower_Render, zeroMetrics,
    Seconds_eq, modeShare]
  norm_num

/-- C5 (amended): for every snapshot that is valid for recording and that
would decrease no counter (non-negative power increment and engine
increments), `record` returns without error, and each counter
`gpu_engine_seconds_total{engine=l, mode=m}` has increased by the sum, over the
snapshot's engines whose lower-cased name is `l`, of `seconds × (percentage of
mode m) × 0.01` (`m` one of busy, sema, wait); the counters of any other mode,
and of any engine label that is no lower-cased engine name of the snapshot,
are unchanged. Three snapshots with period 1.0 s and one engine Render with
busy = 50, from zero metrics, leave `{engine="render", mode="busy"}` at
3 × 1.0 × 0.5 (and the power counter at 3 × 2.0/3600). -/
theorem record_engine_increments (table : Char → Char) (g : GPUTop) (d : GPUTopData)
    (duration : Int) (hvalid : ValidForRecording d duration)
    (hpow : 0 ≤ Hours duration * d.Power.Value)
    (hn : EnginesNonneg (Seconds duration) d.Engines) :
    (record table g d).returned = .nil ∧
    (∀ l m, (record table g d).metrics.engineUsage l m
      = g.engineUsage l m + engineIncrement table (Seconds duration) d.Engines l m) ∧
    Seconds duration = (duration : ℚ) / 1000000000 ∧
    (∀ l m, (m ≠ "busy" ∧ m ≠ "sema" ∧ m ≠ "wait") ∨ (∀ p ∈ d.Engines, ToLower table p.1 ≠ l) →
      (record table g d).metrics.engineUsage l m = g.engineUsage l m) ∧
    ((record table (record table (record table zeroMetrics renderSnapshot).metrics
        renderSnapshot).metrics renderSnapshot).metrics.engineUsage "render" "busy"
      = 3 * 1 * (1 / 2) ∧
     (record table (record table (record table zeroMetrics renderSnapshot).metrics
        renderSnapshot).metrics renderSnapshot).metrics.powerConsumption
      = 3 * 2 / 3600) := by
  obtain ⟨hparse, hW, hp⟩ := hvalid
  have h := record_valid table g d duration hparse hW hpow d.Engines [] (by simp) hp hn
  refine ⟨by rw [h]; rfl, fun l m => by rw [h]; rfl, Seconds_eq duration, ?_, ?_⟩
  · intro l m hlm
    rw [h]
    simp only [recordEngines, addEngines]
    have : engineIncrement table (Seconds duration) d.Engines l m = 0 := by
      unfold engineIncrement
      apply List.sum_eq_zero
      intro x hx
      simp only [List.mem_map] at hx
      obtain ⟨p, hpm, rfl⟩ := hx
      cases hp2 : p.2 with
      | none => rfl
      | some e =>
        rcases hlm with ⟨h1, h2, h3⟩ | hl
        · simp [modeShare, h1, h2, h3]
        · simp [hl p hpm]
    rw [this, add_zero]
  · simp only [record_render, zeroMetrics, modeShare]
    norm_num

/-- Witness of C5 (amended): period 1 s, power 2 W, engine Render. -/
theorem record_engine_increments_witness :
    (record id zeroMetrics renderSnapshot).metrics.engineUsage "render" "busy"
      = zeroMetrics.engineUsage "render" "busy"
        + engineIncrement id (Seconds 1000000000) renderSnapshot.Engines "render" "busy" :=
  (record_engine_increments id zeroMetrics renderSnapshot 1000000000
    ⟨parse_one_second, rfl, enginesPercent_render⟩
    (by rw [Hours_eq]; simp [renderSnapshot, snapshot]) enginesNonneg_render).2.1 "render" "busy"

/-! ## Lemmas on the period text -/

theorem digitChar_isDigit (d : Nat) : (digitChar d).isDigit = true := by
  unfold digitChar
  split <;> decide

theorem natDigitsAux_shape (fuel n : Nat) (acc : List Char) :
    ∃ ds, natDigitsAux fuel n acc = ds ++ acc ∧ (∀ c ∈ ds, c.isDigit = true) ∧
      (0 < fuel → ds ≠ []) := by
  induction fuel generalizing n acc with
  | zero => exact ⟨[], rfl, by simp, by simp⟩
  | succ fuel ih =>
    unfold natDigitsAux
    split_ifs with h
    · refine ⟨[digitChar n], rfl, ?_, by simp⟩
      intro c hc
      simp only [List.mem_singleton] at hc
      subst hc
      exact digitChar_isDigit n
    · obtain ⟨ds, hds, hall, _⟩ := ih (n / 10) (digitChar (n % 10) :: acc)
      refine ⟨ds ++ [digitChar (n % 10)], by rw [hds]; simp, ?_, by simp⟩
      intro c hc
      simp only [List.mem_append, List.mem_singleton] at hc
      rcases hc with hc | rfl
      · exact hall c hc
      · exact digitChar_isDigit _

theorem natDigits_shape (n : Nat) :
    natDigits n ≠ [] ∧ ∀ c ∈ natDigits n, c.isDigit = true := by
  obtain ⟨ds, hds, hall, hne⟩ := natDigitsAux_shape (n + 1) n []
  unfold natDigits
  rw [hds, List.append_nil]
  exact ⟨hne (by omega), hall⟩

theorem formatFloat_shape (x : ℚ) :
    ∃ sgn ds1 ds2, formatFloat x = sgn ++ ds1 ++ '.' :: ds2 ∧ (sgn = [] ∨ sgn = ['-']) ∧
      ds1 ≠ [] ∧ (∀ c ∈ ds1, c.isDigit = true) ∧ (∀ c ∈ ds2, c.isDigit = true) := by
  unfold formatFloat
  simp only
  refine ⟨if x < 0 then ['-'] else [], natDigits _, _, rfl, ?_, (natDigits_shape _).1,
    (natDigits_shape _).2, ?_⟩
  · split_ifs <;> simp
  · intro c hc
    simp only [List.mem_cons, List.mem_singleton, List.not_mem_nil, or_false] at hc
    rcases hc with rfl | rfl | rfl | rfl | rfl | rfl <;> exact digitChar_isDigit _

theorem leadingInt_digits (ds rest : List Char) (x : Nat)
    (hds : ∀ c ∈ ds, c.isDigit = true) (hrest : ∀ c, rest.head? = some c → c.isDigit = false) :
    leadingInt (ds ++ rest) x = none ∨ ∃ v, leadingInt (ds ++ rest) x = some (v, rest) := by
  induction ds generalizing x with
  | nil =>
    right
    cases rest with
    | nil => exact ⟨x, rfl⟩
    | cons c cs =>
      have hc := hrest c rfl
      exact ⟨x, by simp [leadingInt, hc]⟩
  | cons d ds ih =>
    have hd := hds d (by simp)
    simp only [List.cons_append, leadingInt, hd, if_true]
    split_ifs
    · left; rfl
    · left; rfl
    · exact ih _ (fun c hc => hds c (by simp [hc]))

theorem leadingFraction_digits (ds rest : List Char) (x scale : Nat) (overflow : Bool)
    (hds : ∀ c ∈ ds, c.isDigit = true) (hrest : ∀ c, rest.head? = some c → c.isDigit = false) :
    ∃ f sc, leadingFraction (ds ++ rest) x scale overflow = (f, sc, rest) := by
  induction ds generalizing x scale overflow with
  | nil =>
    cases rest with
    | nil => exact ⟨x, scale, rfl⟩
    | cons c cs =>
      have hc := hrest c rfl
      exact ⟨x, scale, by simp [leadingFraction, hc]⟩
  | cons d ds ih =>
    have hd := hds d (by simp)
    have hds2 : ∀ c ∈ ds, c.isDigit = true := fun c hc => hds c (by simp [hc])
    simp only [List.cons_append, leadingFraction, hd, if_true]
    split_ifs
    · exact ih _ _ _ hds2
    · exact ih _ _ _ hds2
    · exact ih _ _ _ hds2
    · exact ih _ _ _ hds2

theorem durationUnit_unknown (v f scale : Nat) (s3 : List Char)
    (h : unitMap (s3.takeWhile (fun c => !(c = '.' || c.isDigit))) = none) :
    ∃ e, durationUnit v f scale s3 = .error e ∧ e ≠ .outOfFuel := by
  unfold durationUnit
  dsimp only
  by_cases hu : s3.takeWhile (fun c => !(c = '.' || c.isDigit)) = []
  · rw [if_pos hu]
    exact ⟨.missingUnit, rfl, by simp⟩
  · rw [if_neg hu, h]
    exact ⟨.unknownUnit _, rfl, by simp⟩

theorem durationLoop_error (c : Char) (cs : List Char) (d : Nat) (e : DurationError)
    (h : durationTerm (c :: cs) = .error e) :
    durationLoop (c :: cs).length (c :: cs) d = .error e := by
  rw [List.length_cons, durationLoop, h]

theorem head_dropWhile_isDigit (u : List Char) :
    ∀ c, (u.dropWhile Char.isDigit).head? = some c → c.isDigit = false := by
  intro c hc
  induction u with
  | nil => simp at hc
  | cons a as ih =>
    rw [List.dropWhile_cons] at hc
    split_ifs at hc with ha
    · exact ih hc
    · simp only [List.head?_cons, Option.some.injEq] at hc
      subst hc
      simpa using ha

theorem durationTerm_unknown (ds1 ds2 u : List Char) (hne : ds1 ≠ [])
    (h1 : ∀ c ∈ ds1, c.isDigit = true) (h2 : ∀ c ∈ ds2, c.isDigit = true)
    (h : unitMap (unitToken u) = none) :
    ∃ e, durationTerm (ds1 ++ '.' :: (ds2 ++ u)) = .error e ∧ e ≠ .outOfFuel := by
  obtain ⟨d, ds, rfl⟩ := List.exists_cons_of_ne_nil hne
  have hd := h1 d (by simp)
  have hu : ds2 ++ u = (ds2 ++ u.takeWhile Char.isDigit) ++ u.dropWhile Char.isDigit := by
    rw [List.append_assoc, List.takeWhile_append_dropWhile]
  have hdot : ∀ c, ('.' :: (ds2 ++ u)).head? = some c → c.isDigit = false := by
    intro c hc
    simp only [List.head?_cons, Option.some.injEq] at hc
    subst hc
    decide
  obtain ⟨f, sc, hf⟩ := leadingFraction_digits (ds2 ++ u.takeWhile Char.isDigit)
    (u.dropWhile Char.isDigit) 0 1 false
    (by
      intro c hc
      simp only [List.mem_append] at hc
      rcases hc with hc | hc
      · exact h2 c hc
      · exact (List.mem_takeWhile_imp hc))
    (head_dropWhile_isDigit u)
  rw [← hu] at hf
  unfold durationTerm
  simp only [List.cons_append, hd, or_true, not_true_eq_false, if_false]
  rcases leadingInt_digits (d :: ds) ('.' :: (ds2 ++ u)) 0 h1 hdot with hi | ⟨v, hi⟩
  · simp only [List.cons_append] at hi
    rw [hi]
    exact ⟨.invalid, rfl, by simp⟩
  · simp only [List.cons_append] at hi
    rw [hi]
    simp only [hf]
    split_ifs
    · exact ⟨.invalid, rfl, by simp⟩
    · exact durationUnit_unknown v f sc _ h

theorem ParseDuration_unknown (x : ℚ) (u : List Char) (h : unitMap (unitToken u) = none) :
    ∃ e, ParseDuration (formatFloat x ++ u) = .error e ∧ e ≠ .outOfFuel := by
  obtain ⟨sgn, ds1, ds2, hfmt, hsgn, hne, h1, h2⟩ := formatFloat_shape x
  obtain ⟨e, he, hfuel⟩ := durationTerm_unknown ds1 ds2 u hne h1 h2 h
  obtain ⟨d, ds, rfl⟩ := List.exists_cons_of_ne_nil hne
  have hd := h1 d (by simp)
  have hdm : d ≠ '-' := by rintro rfl; exact absurd hd (by decide)
  have hdp : d ≠ '+' := by rintro rfl; exact absurd hd (by decide)
  have key : ∀ s1 : List Char, s1 = (d :: ds) ++ '.' :: (ds2 ++ u) →
      (if s1 = ['0'] then (.ok 0 : Except DurationError Int)
       else if s1 = [] then .error .invalid
       else
        match durationLoop s1.length s1 0 with
        | .error e => .error e
        | .ok dd =>
          if (sgn.head? = some '-') then .ok (-(dd : Int))
          else if dd > 2 ^ 63 - 1 then .error .invalid
          else .ok (dd : Int)) = .error e := by
    intro s1 hs1
    have hn0 : s1 ≠ ['0'] := by
      rw [hs1]
      intro h0
      have := congrArg List.length h0
      simp at this
    have hnn : s1 ≠ [] := by rw [hs1]; simp
    rw [if_neg hn0, if_neg hnn]
    have hl : durationLoop s1.length s1 0 = .error e := by
      rw [hs1]
      exact durationLoop_error _ _ _ _ he
    rw [hl]
  refine ⟨e, ?_, hfuel⟩
  rw [hfmt, List.append_assoc, List.append_assoc]
  rcases hsgn with rfl | rfl
  · have := key _ rfl
    simp only [List.nil_append, List.cons_append] at this ⊢
    unfold ParseDuration
    simp only [List.head?_cons, Option.some.injEq, hdm, hdp, or_self, if_false,
      List.head?_nil]
    simpa using this
  · have := key _ rfl
    simp only [List.singleton_append, List.cons_append] at this ⊢
    unfold ParseDuration
    simp only [List.head?_cons, true_or, if_true, List.tail_cons]
    simpa using this

theorem leadingInt_length (s : List Char) (x v : Nat) (r : List Char)
    (h : leadingInt s x = some (v, r)) : r.length ≤ s.length := by
  induction s generalizing x with
  | nil =>
    simp only [leadingInt, Option.some.injEq, Prod.mk.injEq] at h
    rw [← h.2]
  | cons c cs ih =>
    rw [leadingInt] at h
    split_ifs at h
    · have := ih _ h
      simp only [List.length_cons]
      omega
    · simp only [Option.some.injEq, Prod.mk.injEq] at h
      rw [← h.2]

theorem leadingFraction_length (s : List Char) (x scale : Nat) (overflow : Bool) :
    (leadingFraction s x scale overflow).2.2.length ≤ s.length := by
  induction s generalizing x scale overflow with
  | nil => simp [leadingFraction]
  | cons c cs ih =>
    rw [leadingFraction]
    split_ifs
    · exact le_trans (ih _ _ _) (by simp)
    · exact le_trans (ih _ _ _) (by simp)
    · exact le_trans (ih _ _ _) (by simp)
    · exact le_trans (ih _ _ _) (by simp)
    · simp

theorem durationUnit_result (v f scale : Nat) (s3 : List Char) :
    (∃ e, durationUnit v f scale s3 = .error e ∧ e ≠ .outOfFuel) ∨
    ∃ w r, durationUnit v f scale s3 = .ok (w, r) ∧ r.length < s3.length := by
  unfold durationUnit
  dsimp only
  by_cases hu : s3.takeWhile (fun c => !(c = '.' || c.isDigit)) = []
  · rw [if_pos hu]
    exact Or.inl ⟨_, rfl, by simp⟩
  · rw [if_neg hu]
    cases unitMap (s3.takeWhile (fun c => !(c = '.' || c.isDigit))) with
    | none => exact Or.inl ⟨_, rfl, by simp⟩
    | some unit =>
      dsimp only
      by_cases h1 : v > 2 ^ 63 / unit
      · rw [if_pos h1]
        exact Or.inl ⟨_, rfl, by simp⟩
      · rw [if_neg h1]
        by_cases h2 : f > 0 ∧ v * unit + f * unit / scale > 2 ^ 63
        · rw [if_pos h2]
          exact Or.inl ⟨_, rfl, by simp⟩
        · rw [if_neg h2]
          right
          refine ⟨_, _, rfl, ?_⟩
          have hlen := congrArg List.length
            (List.takeWhile_append_dropWhile (fun c => !(c = '.' || c.isDigit)) s3)
          rw [List.length_append] at hlen
          have hpos : 0 < (s3.takeWhile (fun c => !(c = '.' || c.isDigit))).length :=
            List.length_pos.mpr hu
          omega

theorem durationTerm_result (s : List Char) :
    (∃ e, durationTerm s = .error e ∧ e ≠ .outOfFuel) ∨
    ∃ w r, durationTerm s = .ok (w, r) ∧ r.length < s.length := by
  unfold durationTerm
  cases s with
  | nil => exact Or.inl ⟨_, rfl, by simp⟩
  | cons c0 cs =>
    dsimp only
    by_cases hc : ¬ (c0 = '.' ∨ c0.isDigit = true)
    · rw [if_pos hc]
      exact Or.inl ⟨_, rfl, by simp⟩
    · rw [if_neg hc]
      cases hi : leadingInt (c0 :: cs) 0 with
      | none => exact Or.inl ⟨_, rfl, by simp⟩
      | some p =>
        obtain ⟨v, s1⟩ := p
        have hlen := leadingInt_length _ _ _ _ hi
        dsimp only
        split
        · rename_i s2
          have hfl := leadingFraction_length s2 0 1 false
          by_cases hpp : (c0 :: cs).length = ('.' :: s2).length ∧
              s2.length = (leadingFraction s2 0 1 false).2.2.length
          · rw [if_pos hpp]
            exact Or.inl ⟨_, rfl, by simp⟩
          · rw [if_neg hpp]
            rcases durationUnit_result v (leadingFraction s2 0 1 false).1
              (leadingFraction s2 0 1 false).2.1 (leadingFraction s2 0 1 false).2.2
              with h | ⟨w, r, h, hr⟩
            · exact Or.inl h
            · right
              refine ⟨w, r, h, ?_⟩
              simp only [List.length_cons] at hlen ⊢
              omega
        · by_cases hpp : (c0 :: cs).length = s1.length
          · rw [if_pos hpp]
            exact Or.inl ⟨_, rfl, by simp⟩
          · rw [if_neg hpp]
            rcases durationUnit_result v 0 1 s1 with h | ⟨w, r, h, hr⟩
            · exact Or.inl h
            · exact Or.inr ⟨w, r, h, by omega⟩

/-- The loop of `ParseDuration` never lacks iterations: with as many as the
text has characters it ends by itself. -/
theorem durationLoop_fuel (fuel : Nat) (s : List Char) (d : Nat) (h : s.length ≤ fuel) :
    durationLoop fuel s d ≠ .error .outOfFuel := by
  induction fuel generalizing s d with
  | zero =>
    cases s with
    | nil => simp [durationLoop]
    | cons c cs => simp at h
  | succ fuel ih =>
    cases s with
    | nil => simp [durationLoop]
    | cons c cs =>
      rw [durationLoop]
      rcases durationTerm_result (c :: cs) with ⟨e, he, hne⟩ | ⟨w, r, he, hr⟩
      · rw [he]
        simpa using hne
      · rw [he]
        dsimp only
        split_ifs
        · simp
        · apply ih
          simp only [List.length_cons] at h hr
          omega

/-- `ParseDuration` always ends by itself: the marker `outOfFuel` is never its
result. -/
theorem ParseDuration_fuel (s : List Char) : ParseDuration s ≠ .error .outOfFuel := by
  unfold ParseDuration
  dsimp only
  generalize (if s.head? = some '-' ∨ s.head? = some '+' then s.tail else s) = s1
  by_cases h0 : s1 = ['0']
  · rw [if_pos h0]; simp
  · rw [if_neg h0]
    by_cases hn : s1 = []
    · rw [if_pos hn]; simp
    · rw [if_neg hn]
      have := durationLoop_fuel _ s1 0 (le_refl _)
      cases hl : durationLoop s1.length s1 0 with
      | error e =>
        dsimp only
        intro h
        simp only [Except.error.injEq] at h
        subst h
        exact this hl
      | ok d =>
        dsimp only
        split_ifs <;> simp

/-! ## The claim on the period unit -/

/-- C9, as stated, fails: the unit text `s1m` is none of ns, us, µs, ms, s, m,
h, yet the period `1` with it reads `1.000000s1m`, which `ParseDuration` takes
for 1 s + 1 m; with power 2 W `record` returns without error and moves the
power counter from 0 to 61/1800. -/
theorem record_compound_unit_counterexample :
    compoundUnitSnapshot.Period.Unit ∉ claimedUnits ∧
    ∀ table : Char → Char,
      (record table zeroMetrics compoundUnitSnapshot).returned = .nil ∧
      (record table zeroMetrics compoundUnitSnapshot).metrics.powerConsumption = 61 / 1800 ∧
      zeroMetrics.powerConsumption = 0 := by
  refine ⟨by decide, ?_⟩
  intro table
  have hp : ParseDuration (formatFloat compoundUnitSnapshot.Period.Duration ++
      compoundUnitSnapshot.Period.Unit.toList) = .ok 61000000000 := by decide!
  have h := record_valid table zeroMetrics compoundUnitSnapshot 61000000000 hp rfl
    (by rw [Hours_eq]; simp [compoundUnitSnapshot, snapshot]) [] [] rfl
    (by intro p hp; simp at hp) (by intro p hp; simp at hp)
  rw [h]
  refine ⟨rfl, ?_, rfl⟩
  simp only [recordEngines, addEngines, zeroMetrics, Hours_eq, compoundUnitSnapshot, snapshot]
  norm_num

/-- C9 (amended): for every snapshot, whatever its `period.duration`, such that
the text standing after the leading decimal digits of `period.unit`, up to its
next digit or point, is none of the keys of the unit table of package `time`
(ns, us, µs with U+00B5, μs with U+03BC, ms, s, m, h), `record` returns the
error of `ParseDuration` and the metrics are what they were before the call.
This covers every unit without digit and point that is none of the eight. -/
theorem record_unknown_unit (table : Char → Char) (g : GPUTop) (d : GPUTopData)
    (h : unitMap (unitToken d.Period.Unit.toList) = none) :
    ∃ e, e ≠ .outOfFuel ∧ record table g d = ⟨.error (.duration e), g⟩ := by
  obtain ⟨e, he, hne⟩ := ParseDuration_unknown d.Period.Duration d.Period.Unit.toList h
  refine ⟨e, hne, ?_⟩
  unfold record
  rw [he]

/-- Witness of C9 (amended): the unit text `x`. -/
theorem record_unknown_unit_witness :
    ∃ e, e ≠ .outOfFuel ∧
      record id zeroMetrics unknownUnitSnapshot = ⟨.error (.duration e), zeroMetrics⟩ :=
  record_unknown_unit id zeroMetrics unknownUnitSnapshot (by decide)

/-! ## The claims on `Run` -/

/-- C3: the stream `{"a":1},{"a":2}`, two objects separated by a comma and
nothing else, delivered by one read of the pipe: the decoder takes both objects
into its own buffer, `Run` decodes and records the first, `ReadByte` then finds
the end of the stream and `Run` returns: `record` was called once, not twice
(the same with the two telemetry objects `firstObject`, `secondObject`).
Delivered in two reads, the comma opening the second, both objects are
recorded; with a space before the comma, the old decoder meets the comma and
`Run` returns a JSON decode error after one object. -/
theorem Run_one_read_drops_second_object :
    (Run id zeroMetrics (some [twoObjects])).recorded = [zeroData] ∧
    (Run id zeroMetrics (some [twoObjects])).returned = .readByte ∧
    (Run id zeroMetrics (some [firstObject ++ ',' :: secondObject])).recorded
      = [firstSnapshot] ∧
    (Run id zeroMetrics (some [firstObject ++ ',' :: secondObject])).returned = .readByte ∧
    (Run id zeroMetrics (some [firstObject, ',' :: secondObject])).recorded.length = 2 ∧
    (Run id zeroMetrics (some [firstObject, ',' :: secondObject])).returned = .readByte ∧
    (Run id zeroMetrics (some [firstObject, ' ' :: ',' :: secondObject])).recorded
      = [firstSnapshot] ∧
    (Run id zeroMetrics (some [firstObject, ' ' :: ',' :: secondObject])).returned
      = .decode .invalidJSON := by
  refine ⟨?_, ?_, ?_, ?_, ?_, ?_, ?_, ?_⟩ <;> decide!

/-- C10: the stream `firstObject`, then a comma and `secondObject` (each
delivered by its own read). On its own `secondObject` decodes to
`secondSnapshot`, without power and with the engine Video only; the snapshot
that `Run` passes to `record` for it is `staleSnapshot`, which keeps the power
2 W and the engine Render of the first object, so that the counters count them
a second time: power ends at 2 × 2/3600 and `{engine="render", mode="busy"}` at
2 × 0.5. An object `{}` leaves the whole previous snapshot in place. -/
theorem Run_carries_snapshot_over :
    unmarshal zeroData firstObject = .ok firstSnapshot ∧
    unmarshal zeroData secondObject = .ok secondSnapshot ∧
    (Run id zeroMetrics (some [firstObject, ',' :: secondObject])).recorded
      = [firstSnapshot, staleSnapshot] ∧
    staleSnapshot ≠ secondSnapshot ∧
    (Run id zeroMetrics (some [firstObject, ',' :: secondObject])).metrics.powerConsumption
      = 2 * (2 / 3600) ∧
    (Run id zeroMetrics (some [firstObject, ',' :: secondObject])).metrics.engineUsage
      "render" "busy" = 2 * (1 / 2) ∧
    (∀ data : GPUTopData, unmarshal data emptyObject = .ok data) := by
  refine ⟨?_, ?_, ?_, ?_, ?_, ?_, fun data => rfl⟩ <;> decide!

end IntelGpuExporter
